import Mathlib

/-!
# Expensy: expense splitting, settlement and aggregation

A shallow embedding of `routes/expenseRoutes.js` and `models/Expense.js`.

Conventions of the embedding.

* A JavaScript number is a rational.  The handlers take the arithmetic they
  compute with as the parameter `A`: `exact` reads `+`, `-` and `/` as the exact
  operations, `binary64` rounds each result to the nearest IEEE double, ties to
  even, as the runtime does.  Results beyond the largest finite double, `NaN`
  and the sign of zero are not represented.
* The collection of Expense documents is a list in creation order; a handler
  takes the collection and returns its response together with the collection
  after the handler has run.
* Requests and stored documents are taken to satisfy the mongoose schema, and
  the calls `save`, `find` and `findById` to succeed; the 500 answers that the
  handlers give to a storage fault are therefore not produced here.  The 500
  answers caused by the handlers' own code are.
* Every handler receives the identity that `authMiddleware` stored in
  `req.user`.
* A date is carried as the text `new Date(d).toISOString()` produces for it.
* A plain JavaScript object used as a dictionary is the list of its own
  properties in creation order, read through the properties it inherits from
  `Object.prototype`.
-/

namespace Expensy

/-! ## Numbers -/

/-- The arithmetic of the JavaScript operators `+`, `-` and `/` on numbers. -/
structure Arith where
  add : ℚ → ℚ → ℚ
  sub : ℚ → ℚ → ℚ
  div : ℚ → ℚ → ℚ

/-- Numbers read as exact rationals. -/
def exact : Arith :=
  { add := fun a b => a + b
    sub := fun a b => a - b
    div := fun a b => a / b }

/-- The power `2 ^ e` for an integer exponent. -/
def pow2 (e : Int) : ℚ :=
  if 0 ≤ e then ((2 ^ e.toNat : ℕ) : ℚ) else 1 / ((2 ^ (-e).toNat : ℕ) : ℚ)

/-- The integer nearest to a non-negative rational, ties to the even one. -/
def roundHalfEven (x : ℚ) : ℕ :=
  let f := x.num.natAbs / x.den
  let r := x - (f : ℚ)
  if r < 1 / 2 then f
  else if 1 / 2 < r then f + 1
  else if f % 2 = 0 then f else f + 1

/-- The position of the highest set bit of `n`, found by halving at most `fuel`
times. -/
def bitIndex : Nat → Nat → Nat
  | 0, _ => 0
  | fuel + 1, n => if n < 2 then 0 else bitIndex fuel (n / 2) + 1

/-- The exponent `e` with `2 ^ e ≤ x < 2 ^ (e + 1)`, for a positive rational. -/
def floorLog2 (x : ℚ) : Int :=
  let l : Int := (bitIndex x.num.natAbs x.num.natAbs : Int) - (bitIndex x.den x.den : Int)
  if pow2 l ≤ x then l else l - 1

/-- The IEEE 754 binary64 number nearest to `q`, ties to even: a significand of
53 bits, and an exponent that does not go below that of the subnormals. -/
def round64 (q : ℚ) : ℚ :=
  if q = 0 then 0
  else
    let e : Int := max (floorLog2 |q| - 52) (-1074)
    let m := roundHalfEven (|q| / pow2 e)
    (if q < 0 then -1 else 1) * (m : ℚ) * pow2 e

/-- Numbers as the runtime computes them: every operation is rounded to the
nearest double. -/
def binary64 : Arith :=
  { add := fun a b => round64 (a + b)
    sub := fun a b => round64 (a - b)
    div := fun a b => round64 (a / b) }

/-! ## Data model (`models/Expense.js`) -/

/-- One entry of `splitDetails` (`SplitDetailSchema`). -/
structure SplitDetail where
  userId : Option String
  name : String
  share : ℚ
  hasPaid : Bool
deriving DecidableEq, Repr

/-- An Expense document (`ExpenseSchema`) together with its `_id`. -/
structure Expense where
  _id : String
  userId : String
  amount : ℚ
  category : String
  date : String
  description : Option String
  splitDetails : List SplitDetail
deriving DecidableEq, Repr

/-- The Expense collection, in creation order. -/
abbrev Store := List Expense

/-- The decoded token payload kept in `req.user`. -/
structure User where
  userId : String
  name : Option String
deriving DecidableEq, Repr

/-- One element of the `splitWith` array of the request body of `/add`. -/
structure Person where
  userId : Option String
  name : Option String
deriving DecidableEq, Repr

/-- Request body of `POST /add`.  The field `date` is `none` when the body has
no `date`, `some none` when it is `null`, and otherwise the text of the date. -/
structure AddBody where
  amount : ℚ
  category : String
  date : Option (Option String)
  description : Option String
  splitWith : Option (List Person)
deriving DecidableEq, Repr

/-- Request body of `PUT /update-status`. -/
structure UpdateBody where
  expenseId : String
  detailIndex : Nat
  hasPaid : Bool
deriving DecidableEq, Repr

/-- What a handler sends: `res.status(s).json(payload)` on the normal path, or
`res.status(s).json({ error: msg })`. -/
inductive Response (α : Type) where
  | json (status : Nat) (payload : α)
  | error (status : Nat) (msg : String)
deriving DecidableEq, Repr

/-! ## JavaScript helpers -/

/-- The expression `x || d` for an optional string `x`: the empty string and a
missing value are both falsy. -/
def orDefault (x : Option String) (d : String) : String :=
  match x with
  | some s => if s = "" then d else s
  | none => d

/-- The expression `x || null` for an optional string `x`. -/
def orNull (x : Option String) : Option String :=
  match x with
  | some s => if s = "" then none else some s
  | none => none

/-! ## `POST /add` -/

/-- Line 12: `splitWith && splitWith.length > 0 ? splitWith.length + 1 : 1`. -/
def totalParticipants (splitWith : Option (List Person)) : Nat :=
  match splitWith with
  | some ps => if ps.length > 0 then ps.length + 1 else 1
  | none => 1

/-- Line 13: `amount / totalParticipants`. -/
def splitAmount (A : Arith) (amount : ℚ) (splitWith : Option (List Person)) : ℚ :=
  A.div amount (totalParticipants splitWith : ℚ)

/-- Lines 16-33: the mapped participants followed by the pushed entry of the
main user. -/
def buildSplitDetails (A : Arith) (user : User) (amount : ℚ)
    (splitWith : Option (List Person)) : List SplitDetail :=
  let share := splitAmount A amount splitWith
  let splitDetails : List SplitDetail :=
    match splitWith with
    | some ps =>
      if ps.length > 0 then
        ps.map (fun person =>
          { userId := orNull person.userId
            name := orDefault person.name "Anonymous"
            share := share
            hasPaid := false })
      else []
    | none => []
  splitDetails ++
    [{ userId := some user.userId
       name := orDefault user.name "You"
       share := share
       hasPaid := true }]

/-- The handler of `POST /add`.  `oid` is the identifier mongoose generates for
the new document and `schemaDefaultDate` the default of the `date` path, which
applies to an absent `date` only; a `null` date is stored as it is and reads as
`new Date(null)`, the epoch. -/
def add (A : Arith) (schemaDefaultDate oid : String) (user : User) (body : AddBody)
    (store : Store) : Response Expense × Store :=
  let expense : Expense :=
    { _id := oid
      userId := user.userId
      amount := body.amount
      category := body.category
      date :=
        match body.date with
        | none => schemaDefaultDate
        | some none => "1970-01-01T00:00:00.000Z"
        | some (some iso) => iso
      description := body.description
      splitDetails := buildSplitDetails A user body.amount body.splitWith }
  (Response.json 201 expense, store ++ [expense])

/-! ## `PUT /update-status` -/

/-- The query `Expense.findById(expenseId)`. -/
def findById (store : Store) (expenseId : String) : Option Expense :=
  store.find? (fun e => e._id = expenseId)

/-- The call `expense.save()` for a document loaded by `findById`: the stored
document with that `_id` is replaced. -/
def save (expense : Expense) : Store → Store
  | [] => []
  | e :: es => if e._id = expense._id then expense :: es else e :: save expense es

/-- The handler of `PUT /update-status`.  The assignment to
`expense.amountLeftToBePaid` targets a path the schema does not declare; it is
neither stored nor serialised and so has no counterpart here.  Reading
`hasPaid` of an out-of-range entry throws, which the handler answers with 500.
The operands of line 71 are numbers, so `Number(...)` leaves them as they are. -/
def updateSettlementStatus (A : Arith) (_user : User) (body : UpdateBody) (store : Store) :
    Response (String × Expense) × Store :=
  match findById store body.expenseId with
  | none => (Response.error 404 "Expense not found", store)
  | some expense =>
    match expense.splitDetails[body.detailIndex]? with
    | none => (Response.error 500 "Failed to update payment status", store)
    | some participant =>
      if participant.hasPaid = body.hasPaid then
        (Response.error 400 "Status already updated", store)
      else
        let amount :=
          if body.hasPaid then A.sub expense.amount participant.share
          else A.add expense.amount participant.share
        let updated : Expense :=
          { expense with
            amount := amount
            splitDetails :=
              expense.splitDetails.set body.detailIndex
                { participant with hasPaid := body.hasPaid } }
        (Response.json 200 ("Payment status updated", updated), save updated store)

/-! ## Plain objects used as dictionaries -/

/-- A value the handlers store in a plain object: a number, or a string.  A
string is kept as its leading text together with the numbers whose decimal
texts have been appended to it, in order. -/
inductive JVal where
  | num (q : ℚ)
  | text (head : String) (appended : List ℚ)
deriving DecidableEq, Repr

/-- The own properties of a plain object created as `{}`, in creation order. -/
abbrev Obj := List (String × JVal)

/-- The own property `k` of `o`, if there is one. -/
def objGet (o : Obj) (k : String) : Option JVal :=
  match o with
  | [] => none
  | (k', v) :: rest => if k' = k then some v else objGet rest k

/-- The own property `k` of `o` set to `v`: an existing property keeps its
place, a new one is created last. -/
def objSet (o : Obj) (k : String) (v : JVal) : Obj :=
  match o with
  | [] => [(k, v)]
  | (k', v') :: rest => if k' = k then (k', v) :: rest else (k', v') :: objSet rest k v

/-- The function-valued properties every plain object inherits from
`Object.prototype`: the key, and the name of the native function under it. -/
def inheritedFunctions : List (String × String) :=
  [("constructor", "Object"),
   ("__defineGetter__", "__defineGetter__"),
   ("__defineSetter__", "__defineSetter__"),
   ("hasOwnProperty", "hasOwnProperty"),
   ("__lookupGetter__", "__lookupGetter__"),
   ("__lookupSetter__", "__lookupSetter__"),
   ("isPrototypeOf", "isPrototypeOf"),
   ("propertyIsEnumerable", "propertyIsEnumerable"),
   ("toString", "toString"),
   ("valueOf", "valueOf"),
   ("toLocaleString", "toLocaleString")]

/-- The native function a plain object inherits under the key `k`, if any. -/
def inheritedFn (k : String) : Option String :=
  (inheritedFunctions.find? (fun p => p.1 = k)).map Prod.snd

/-- Whether a plain object inherits a property under the key `k`: one of the
native functions, or the accessor `__proto__`. -/
def inherited (k : String) : Bool :=
  decide (k = "__proto__") || (inheritedFn k).isSome

/-- What reading `o[k]` finds when it is not `undefined`. -/
inductive Found where
  | own (v : JVal)
  | nativeFn (name : String)
  | prototype
deriving DecidableEq, Repr

/-- The expression `o[k]`; `none` stands for `undefined`.  An own property
shadows an inherited one; `__proto__` reads as `Object.prototype`. -/
def objLookup (o : Obj) (k : String) : Option Found :=
  match objGet o k with
  | some v => some (Found.own v)
  | none =>
    if k = "__proto__" then some Found.prototype
    else (inheritedFn k).map Found.nativeFn

/-- Whether a value that was found is falsy: the number 0 and the empty
string are, objects and functions are not. -/
def falsy (x : Found) : Bool :=
  match x with
  | Found.own (JVal.num q) => decide (q = 0)
  | Found.own (JVal.text head appended) => decide (head = "") && appended.isEmpty
  | Found.nativeFn _ => false
  | Found.prototype => false

/-- The text of a native function, as `String(f)` gives it. -/
def fnSource (name : String) : String :=
  "function " ++ name ++ "() { [native code] }"

/-- The expression `x + n` for a number `n`: numbers are added, and anything
else is turned into a string to which the decimal text of `n` is appended. -/
def plus (A : Arith) (x : Found) (n : ℚ) : JVal :=
  match x with
  | Found.own (JVal.num q) => JVal.num (A.add q n)
  | Found.own (JVal.text head appended) => JVal.text head (appended ++ [n])
  | Found.nativeFn name => JVal.text (fnSource name) [n]
  | Found.prototype => JVal.text "[object Object]" [n]

/-- The assignment `o[k] = v` of a number or a string: the setter behind
`__proto__` ignores such a value, any other key becomes or stays an own
property. -/
def objAssign (o : Obj) (k : String) (v : JVal) : Obj :=
  if k = "__proto__" then o else objSet o k v

/-- The numeric value of a key that is an array index (a canonical decimal
numeral below `2^32 - 1`), and `none` for any other key. -/
def arrayIndex (k : String) : Option Nat :=
  let cs := k.data
  if cs.all Char.isDigit && (cs.length == 1 || cs.head? != some '0') && cs.length != 0 then
    let n := cs.foldl (fun n c => 10 * n + (c.toNat - 48)) 0
    if n < 2 ^ 32 - 1 then some n else none
  else none

/-- The call `Object.keys(o)`: array-index keys in ascending numeric order,
then the remaining keys in creation order. -/
def objectKeys (o : Obj) : List String :=
  let ks := o.map Prod.fst
  (ks.filter (fun k => (arrayIndex k).isSome)).insertionSort
      (fun a b => (arrayIndex a).getD 0 ≤ (arrayIndex b).getD 0)
    ++ ks.filter (fun k => (arrayIndex k).isNone)

/-- Whether one text comes before another in the order of their characters. -/
def textBefore : List Char → List Char → Bool
  | [], [] => false
  | [], _ :: _ => true
  | _ :: _, [] => false
  | a :: as, b :: bs => if a.val < b.val then true else if b.val < a.val then false
      else textBefore as bs

/-- The comparison `x > y` of two own values.  Numbers compare as numbers and
strings by their characters; a string against a number compares as `NaN` and a
comparison with `undefined` is false.  The strings the handlers build start
with the texts of different native functions, which decide their order. -/
def jsGt (x y : Option JVal) : Bool :=
  match x, y with
  | some (JVal.num a), some (JVal.num b) => decide (a > b)
  | some (JVal.text a _), some (JVal.text b _) => textBefore b.data a.data
  | _, _ => false

/-- The comparison `x < y` of two own values, read as `jsGt` is. -/
def jsLt (x y : Option JVal) : Bool :=
  match x, y with
  | some (JVal.num a), some (JVal.num b) => decide (a < b)
  | some (JVal.text a _), some (JVal.text b _) => textBefore a.data b.data
  | _, _ => false

/-- The call `keys.reduce(f)` without an initial value: it throws on the empty
array (`none`), otherwise folds from the first element. -/
def reduceNoInit (f : String → String → String) : List String → Option String
  | [] => none
  | k :: ks => some (ks.foldl f k)

/-! ## `GET /fetch` -/

/-- The query `Expense.find({ userId })`. -/
def find (store : Store) (userId : String) : List Expense :=
  store.filter (fun e => e.userId = userId)

/-- Payload of the `/fetch` response. -/
structure FetchResult where
  expenses : List Expense
  totalAmountSpent : ℚ
  totalAmountLeftToBePaid : ℚ
  individualBalances : Obj
deriving DecidableEq, Repr

/-- Lines 98-110: the body of the inner `forEach`, acting on the pair
`(totalAmountLeftToBePaid, individualBalances)`.  The test
`detail.name in individualBalances` holds for own and for inherited
properties; then `+=` reads the property, adds the share and assigns. -/
def tally (A : Arith) (acc : ℚ × Obj) (detail : SplitDetail) : ℚ × Obj :=
  if !detail.hasPaid then
    (A.add acc.1 detail.share,
      match objLookup acc.2 detail.name with
      | some x => objAssign acc.2 detail.name (plus A x detail.share)
      | none => objAssign acc.2 detail.name (JVal.num detail.share))
  else acc

/-- Lines 94-111: both `forEach` loops. -/
def tallyAll (A : Arith) (expenses : List Expense) : ℚ × Obj :=
  expenses.foldl (fun acc expense => expense.splitDetails.foldl (tally A) acc) (0, [])

/-- The handler of `GET /fetch`. -/
def fetch (A : Arith) (user : User) (store : Store) : Response FetchResult :=
  let expenses := find store user.userId
  let totalAmountSpent := expenses.foldl (fun total expense => A.add total expense.amount) 0
  let t := tallyAll A expenses
  Response.json 200
    { expenses := expenses
      totalAmountSpent := A.sub totalAmountSpent t.1
      totalAmountLeftToBePaid := t.1
      individualBalances := t.2 }

/-! ## `GET /analyze` -/

/-- The key `iso.split("T")[0]` of the date-wise breakdown. -/
def dayKey (iso : String) : String :=
  String.mk (iso.data.takeWhile (fun c => c != 'T'))

/-- The key `iso.slice(0, 7)` of the monthly breakdown (the text is ASCII, so
code units are characters). -/
def monthKey (iso : String) : String :=
  String.mk (iso.data.take 7)

/-- The reducer `acc[key(exp)] = (acc[key(exp)] || 0) + exp.amount`. -/
def accumulate (A : Arith) (key : Expense → String) (acc : Obj) (exp : Expense) : Obj :=
  let prior : Found :=
    match objLookup acc (key exp) with
    | some x => if falsy x then Found.own (JVal.num 0) else x
    | none => Found.own (JVal.num 0)
  objAssign acc (key exp) (plus A prior exp.amount)

/-- The breakdown `expenses.reduce(..., {})` for a given key. -/
def breakdown (A : Arith) (key : Expense → String) (expenses : List Expense) : Obj :=
  expenses.foldl (accumulate A key) []

/-- Line 178 and 182: `Object.keys(o).reduce((a, b) => (o[a] > o[b] ? a : b))`.
The keys are own properties, so the two reads are own values. -/
def highestKey (o : Obj) : Option String :=
  reduceNoInit (fun a b => if jsGt (objGet o a) (objGet o b) then a else b) (objectKeys o)

/-- Line 179 and 183: `Object.keys(o).reduce((a, b) => (o[a] < o[b] ? a : b))`. -/
def lowestKey (o : Obj) : Option String :=
  reduceNoInit (fun a b => if jsLt (objGet o a) (objGet o b) then a else b) (objectKeys o)

/-- Payload of the `/analyze` response.  An extremum is the pair of its key and
the value read under that key. -/
structure AnalysisResult where
  totalAmount : ℚ
  categoryWise : Obj
  dateWise : Obj
  monthlyWise : Obj
  highestCategory : String × Option JVal
  lowestCategory : String × Option JVal
  highestDate : String × Option JVal
  lowestDate : String × Option JVal
deriving DecidableEq, Repr

/-- The handler of `GET /analyze`.  A `reduce` that throws is answered by the
`catch` block. -/
def analyze (A : Arith) (user : User) (store : Store) : Response AnalysisResult :=
  let expenses := find store user.userId
  let totalAmount := expenses.foldl (fun total exp => A.add total exp.amount) 0
  let categoryWise := breakdown A (fun exp => exp.category) expenses
  let dateWise := breakdown A (fun exp => dayKey exp.date) expenses
  let monthlyWise := breakdown A (fun exp => monthKey exp.date) expenses
  match highestKey categoryWise, lowestKey categoryWise,
      highestKey dateWise, lowestKey dateWise with
  | some highestCategory, some lowestCategory, some highestDate, some lowestDate =>
    Response.json 200
      { totalAmount := totalAmount
        categoryWise := categoryWise
        dateWise := dateWise
        monthlyWise := monthlyWise
        highestCategory := (highestCategory, objGet categoryWise highestCategory)
        lowestCategory := (lowestCategory, objGet categoryWise lowestCategory)
        highestDate := (highestDate, objGet dateWise highestDate)
        lowestDate := (lowestDate, objGet dateWise lowestDate) }
  | _, _, _, _ => Response.error 500 "Failed to analyze expenses"

/-! ## Observations used in the statements -/

/-- The sum of the shares of the unpaid entries of a split list. -/
def unpaidShares (details : List SplitDetail) : ℚ :=
  ((details.filter (fun d => !d.hasPaid)).map (fun d => d.share)).sum

/-- The collection after a sequence of `/update-status` requests, each given
by its caller and its body. -/
def applyUpdates (A : Arith) (store : Store) (calls : List (User × UpdateBody)) : Store :=
  calls.foldl (fun s call => (updateSettlementStatus A call.1 call.2 s).2) store

/-- The number stored under a key of a breakdown (0 when there is none). -/
def amountOf (o : Obj) (k : String) : ℚ :=
  match objGet o k with
  | some (JVal.num q) => q
  | _ => 0

/-- The shares of the unpaid split details that bear `name`, in the order in
which `/fetch` visits them. -/
def owedShares (name : String) (expenses : List Expense) : List ℚ :=
  ((expenses.flatMap (fun e => e.splitDetails)).filter
    (fun d => !d.hasPaid && decide (d.name = name))).map (fun d => d.share)

/-- Whether every value of a breakdown is a number. -/
def allNumbers (o : Obj) : Bool :=
  o.all (fun p =>
    match p.2 with
    | JVal.num _ => true
    | JVal.text _ _ => false)

/-- The sum of the numbers among the values of a breakdown. -/
def valueSum (o : Obj) : ℚ :=
  (o.map (fun p =>
    match p.2 with
    | JVal.num q => q
    | JVal.text _ _ => 0)).sum

/-- The keys whose amount is at least that of every key, in `Object.keys`
order. -/
def greatestKeys (o : Obj) : List String :=
  (objectKeys o).filter (fun c =>
    (objectKeys o).all (fun j => decide (amountOf o j ≤ amountOf o c)))

/-- The keys whose amount is at most that of every key, in `Object.keys`
order. -/
def leastKeys (o : Obj) : List String :=
  (objectKeys o).filter (fun c =>
    (objectKeys o).all (fun j => decide (amountOf o c ≤ amountOf o j)))

/-! ## Example data -/

/-- The initiator of the example scenario. -/
def exampleAlice : User :=
  { userId := "alice-id", name := some "Alice" }

/-- The request of the example scenario: 300, shared with Bob. -/
def exampleBody : AddBody :=
  { amount := 300
    category := "food"
    date := some (some "2024-03-05T10:00:00.000Z")
    description := none
    splitWith := some [{ userId := none, name := some "Bob" }] }

/-- The collection after Alice has added the example expense to an empty one. -/
def exampleStore : Store :=
  (add exact "2024-01-01T00:00:00.000Z" "e1" exampleAlice exampleBody []).2

/-- Bob's entry of the example expense. -/
def exampleBob : SplitDetail :=
  { userId := none, name := "Bob", share := 150, hasPaid := false }

/-- Alice's entry of the example expense. -/
def exampleAliceEntry : SplitDetail :=
  { userId := some "alice-id", name := "Alice", share := 150, hasPaid := true }

/-- The example expense as stored. -/
def exampleExpense : Expense :=
  { _id := "e1"
    userId := "alice-id"
    amount := 300
    category := "food"
    date := "2024-03-05T10:00:00.000Z"
    description := none
    splitDetails := [exampleBob, exampleAliceEntry] }

/-- A collection with two expenses of one user that tie in amount. -/
def tieStore : Store :=
  [{ _id := "t1", userId := "alice-id", amount := 10, category := "food",
     date := "2024-03-05T10:00:00.000Z", description := none, splitDetails := [] },
   { _id := "t2", userId := "alice-id", amount := 10, category := "travel",
     date := "2024-03-06T18:30:00.000Z", description := none, splitDetails := [] }]

/-- One expense of Alice filed under the category `__proto__`. -/
def protoStore : Store :=
  [{ _id := "p1", userId := "alice-id", amount := 10, category := "__proto__",
     date := "2024-03-05T10:00:00.000Z", description := none, splitDetails := [] }]

/-- Two expenses of Alice: 10 under the category `constructor`, 4 under `food`. -/
def constructorStore : Store :=
  [{ _id := "c1", userId := "alice-id", amount := 10, category := "constructor",
     date := "2024-03-05T10:00:00.000Z", description := none, splitDetails := [] },
   { _id := "c2", userId := "alice-id", amount := 4, category := "food",
     date := "2024-03-06T18:30:00.000Z", description := none, splitDetails := [] }]

/-- The request 300 shared with two participants who both go by `name`. -/
def namesakeBody (name : String) : AddBody :=
  { amount := 300
    category := "food"
    date := some (some "2024-03-05T10:00:00.000Z")
    description := none
    splitWith := some [{ userId := none, name := some name },
                       { userId := none, name := some name }] }

/-- The collection after Alice has added `namesakeBody name` to an empty one. -/
def namesakeStore (name : String) : Store :=
  (add exact "2024-01-01T00:00:00.000Z" "n1" exampleAlice (namesakeBody name) []).2

/-- The collection, computed in doubles, after Alice has added 0.03 on her own
and 0.08 shared with Bob.  The amounts are the doubles the request texts
`0.03` and `0.08` parse to. -/
def centsStore : Store :=
  (add binary64 "2024-01-01T00:00:00.000Z" "r2" exampleAlice
    { amount := round64 (8 / 100), category := "food", date := none, description := none,
      splitWith := some [{ userId := none, name := some "Bob" }] }
    (add binary64 "2024-01-01T00:00:00.000Z" "r1" exampleAlice
      { amount := round64 (3 / 100), category := "food", date := none, description := none,
        splitWith := none } []).2).2

/-- The request 1 shared with Bob and Carol. -/
def thirdsBody : AddBody :=
  { amount := 1
    category := "food"
    date := none
    description := none
    splitWith := some [{ userId := none, name := some "Bob" },
                       { userId := none, name := some "Carol" }] }

/-- The collection, computed in doubles, after Alice has added `thirdsBody` to
an empty one. -/
def thirdsStore : Store :=
  (add binary64 "2024-01-01T00:00:00.000Z" "q1" exampleAlice thirdsBody []).2

/-! ## Lemmas on the exact arithmetic -/

@[simp] theorem exact_add (a b : ℚ) : exact.add a b = a + b := rfl

@[simp] theorem exact_sub (a b : ℚ) : exact.sub a b = a - b := rfl

@[simp] theorem exact_div (a b : ℚ) : exact.div a b = a / b := rfl

/-! ## Lemmas on `POST /add` -/

theorem totalParticipants_eq (splitWith : Option (List Person)) :
    totalParticipants splitWith = (splitWith.getD []).length + 1 := by
  cases splitWith with
  | none => rfl
  | some ps => cases ps <;> simp [totalParticipants]

theorem splitAmount_eq (A : Arith) (amount : ℚ) (splitWith : Option (List Person)) :
    splitAmount A amount splitWith
      = A.div amount (((splitWith.getD []).length : ℚ) + 1) := by
  simp [splitAmount, totalParticipants_eq]

theorem buildSplitDetails_eq (A : Arith) (user : User) (amount : ℚ)
    (splitWith : Option (List Person)) :
    buildSplitDetails A user amount splitWith =
      (splitWith.getD []).map (fun person =>
          ({ userId := orNull person.userId
             name := orDefault person.name "Anonymous"
             share := splitAmount A amount splitWith
             hasPaid := false } : SplitDetail))
        ++ [{ userId := some user.userId
              name := orDefault user.name "You"
              share := splitAmount A amount splitWith
              hasPaid := true }] := by
  cases splitWith with
  | none => simp [buildSplitDetails]
  | some ps => cases ps <;> simp [buildSplitDetails]

/-! ## Lemmas on `PUT /update-status` -/

theorem findById_id {store : Store} {expenseId : String} {expense : Expense}
    (h : findById store expenseId = some expense) : expense._id = expenseId := by
  have := List.find?_some h
  simpa using this

theorem save_of_findById {store : Store} {expenseId : String} {expense : Expense}
    (h : findById store expenseId = some expense) : save expense store = store := by
  induction store with
  | nil => rfl
  | cons e es ih =>
    unfold findById at h ih
    by_cases he : e._id = expenseId
    · have : e = expense := by simpa [List.find?, he] using h
      subst this
      simp [save]
    · have h2 : es.find? (fun e => decide (e._id = expenseId)) = some expense := by
        simpa [List.find?, he] using h
      have hid : expense._id = expenseId := @findById_id es expenseId expense h2
      have hne : ¬ e._id = expense._id := by rw [hid]; exact he
      simp [save, hne, ih h2]

theorem findById_save {store : Store} {expenseId : String} {expense updated : Expense}
    (h : findById store expenseId = some expense) (hid : updated._id = expenseId) :
    findById (save updated store) expenseId = some updated := by
  induction store with
  | nil => simp [findById] at h
  | cons e es ih =>
    unfold findById at h ih ⊢
    by_cases he : e._id = expenseId
    · simp [save, he, hid, List.find?]
    · have h2 : es.find? (fun e => decide (e._id = expenseId)) = some expense := by
        simpa [List.find?, he] using h
      have hne : ¬ e._id = updated._id := by rw [hid]; exact he
      simp [save, hne, List.find?, he, ih h2]

theorem save_save (store : Store) (first second : Expense) (hid : second._id = first._id) :
    save second (save first store) = save second store := by
  induction store with
  | nil => rfl
  | cons e es ih =>
    by_cases he : e._id = first._id
    · simp [save, he, hid]
    · have hne : ¬ e._id = second._id := by rw [hid]; exact he
      simp [save, he, hne, ih]

/-- The outcome of a status update that changes the flag of an existing
entry. -/
theorem updateSettlementStatus_changed (A : Arith) (user : User) (store : Store)
    (expenseId : String) (detailIndex : Nat) (b : Bool) (expense : Expense)
    (detail : SplitDetail)
    (hfind : findById store expenseId = some expense)
    (hidx : expense.splitDetails[detailIndex]? = some detail)
    (hne : detail.hasPaid ≠ b) :
    updateSettlementStatus A user ⟨expenseId, detailIndex, b⟩ store =
      (Response.json 200 ("Payment status updated",
          { expense with
            amount :=
              if b then A.sub expense.amount detail.share
              else A.add expense.amount detail.share
            splitDetails := expense.splitDetails.set detailIndex { detail with hasPaid := b } }),
        save { expense with
            amount :=
              if b then A.sub expense.amount detail.share
              else A.add expense.amount detail.share
            splitDetails := expense.splitDetails.set detailIndex { detail with hasPaid := b } }
          store) := by
  simp [updateSettlementStatus, hfind, hidx, hne]

/-- The outcome of a status update that repeats the stored flag. -/
theorem updateSettlementStatus_same (A : Arith) (user : User) (store : Store)
    (expenseId : String) (detailIndex : Nat) (b : Bool) (expense : Expense)
    (detail : SplitDetail)
    (hfind : findById store expenseId = some expense)
    (hidx : expense.splitDetails[detailIndex]? = some detail)
    (hsame : detail.hasPaid = b) :
    updateSettlementStatus A user ⟨expenseId, detailIndex, b⟩ store =
      (Response.error 400 "Status already updated", store) := by
  simp [updateSettlementStatus, hfind, hidx, hsame]

/-! ## Lemmas on plain objects -/

theorem objGet_objSet (o : Obj) (k k' : String) (v : JVal) :
    objGet (objSet o k v) k' = if k = k' then some v else objGet o k' := by
  induction o with
  | nil => simp [objSet, objGet]
  | cons p rest ih =>
    obtain ⟨a, w⟩ := p
    by_cases hak : a = k
    · subst hak
      by_cases hk : a = k' <;> simp [objSet, objGet, hk]
    · by_cases hk : k = k'
      · subst hk
        simp [objSet, objGet, hak, ih]
      · simp [objSet, objGet, hak, ih, hk]

theorem objGet_eq_some_iff_mem (o : Obj) (k : String) :
    (∃ v, objGet o k = some v) ↔ k ∈ o.map Prod.fst := by
  induction o with
  | nil => simp [objGet]
  | cons p rest ih =>
    obtain ⟨a, w⟩ := p
    by_cases hak : a = k
    · simp [objGet, hak]
    · have hka : ¬ k = a := fun h => hak h.symm
      simp [objGet, hak, hka, ih]

theorem objGet_mem (o : Obj) (k : String) (v : JVal) (h : objGet o k = some v) :
    (k, v) ∈ o := by
  induction o with
  | nil => simp [objGet] at h
  | cons p rest ih =>
    obtain ⟨a, w⟩ := p
    by_cases hak : a = k
    · simp [objGet, hak] at h
      simp [hak, h]
    · simp [objGet, hak] at h
      exact List.mem_cons_of_mem _ (ih h)

theorem mem_objSet (o : Obj) (k : String) (v : JVal) (p : String × JVal)
    (h : p ∈ objSet o k v) : p ∈ o ∨ p = (k, v) := by
  induction o with
  | nil => simpa [objSet] using h
  | cons q rest ih =>
    obtain ⟨a, w⟩ := q
    by_cases hak : a = k
    · simp only [objSet, hak, if_true, List.mem_cons] at h
      rcases h with h | h
      · exact Or.inr (by rw [h])
      · exact Or.inl (List.mem_cons_of_mem _ h)
    · simp only [objSet, hak, if_false, List.mem_cons] at h
      rcases h with h | h
      · exact Or.inl (by rw [h]; exact List.mem_cons_self _ _)
      · rcases ih h with h' | h'
        · exact Or.inl (List.mem_cons_of_mem _ h')
        · exact Or.inr h'

theorem mem_objectKeys (o : Obj) (k : String) :
    k ∈ objectKeys o ↔ k ∈ o.map Prod.fst := by
  unfold objectKeys
  simp only [List.mem_append, (List.perm_insertionSort _ _).mem_iff, List.mem_filter]
  cases h : arrayIndex k <;> simp [h]

theorem objSet_ne_nil (o : Obj) (k : String) (v : JVal) : objSet o k v ≠ [] := by
  cases o with
  | nil => simp [objSet]
  | cons p rest =>
    obtain ⟨a, w⟩ := p
    by_cases hak : a = k <;> simp [objSet, hak]

theorem objectKeys_ne_nil (o : Obj) (h : o ≠ []) : objectKeys o ≠ [] := by
  cases o with
  | nil => exact absurd rfl h
  | cons p rest =>
    have hmem : p.1 ∈ objectKeys (p :: rest) := (mem_objectKeys _ _).2 (by simp)
    exact List.ne_nil_of_mem hmem

/-- A key that is not inherited reads as its own property or as `undefined`. -/
theorem objLookup_of_not_inherited (o : Obj) (k : String) (hk : inherited k = false) :
    objLookup o k = (objGet o k).map Found.own := by
  unfold inherited at hk
  simp only [Bool.or_eq_false_iff, decide_eq_false_iff_not] at hk
  obtain ⟨h1, h2⟩ := hk
  have h3 : inheritedFn k = none := by
    cases h : inheritedFn k with
    | none => rfl
    | some f => simp [h] at h2
  cases hget : objGet o k <;> simp [objLookup, hget, h1, h3]

theorem objAssign_of_not_inherited (o : Obj) (k : String) (v : JVal)
    (hk : inherited k = false) : objAssign o k v = objSet o k v := by
  unfold inherited at hk
  simp only [Bool.or_eq_false_iff, decide_eq_false_iff_not] at hk
  simp [objAssign, hk.1]

/-! ## Lemmas on `GET /fetch` -/

theorem foldl_plus_eq_sum (l : List ℚ) (init : ℚ) :
    l.foldl (fun a b => a + b) init = init + l.sum := by
  induction l generalizing init with
  | nil => simp
  | cons x xs ih => simp [ih, add_assoc]

theorem foldl_add_amount (A : Arith) (expenses : List Expense) (init : ℚ) :
    expenses.foldl (fun total expense => A.add total expense.amount) init
      = (expenses.map (fun e => e.amount)).foldl A.add init := by
  rw [List.foldl_map]

theorem tallyAll_eq (A : Arith) (expenses : List Expense) :
    tallyAll A expenses
      = (expenses.flatMap (fun e => e.splitDetails)).foldl (tally A) (0, []) := by
  unfold tallyAll
  generalize ((0, []) : ℚ × Obj) = init
  induction expenses generalizing init with
  | nil => rfl
  | cons e es ih => simp [List.flatMap_cons, List.foldl_append, ih]

theorem foldl_tally_fst (A : Arith) (details : List SplitDetail) (acc : ℚ × Obj) :
    (details.foldl (tally A) acc).1
      = ((details.filter (fun d => !d.hasPaid)).map (fun d => d.share)).foldl A.add acc.1 := by
  induction details generalizing acc with
  | nil => simp
  | cons d ds ih =>
    rw [List.foldl_cons, ih]
    by_cases hp : d.hasPaid = true
    · simp [tally, hp]
    · simp [tally, hp]

/-! ## Lemmas on the settled part of an expense -/

theorem unpaidShares_set (details : List SplitDetail) (i : Nat) (detail : SplitDetail)
    (b : Bool) (hidx : details[i]? = some detail) (hne : detail.hasPaid ≠ b) :
    unpaidShares (details.set i { detail with hasPaid := b })
      = unpaidShares details + (if b then -detail.share else detail.share) := by
  induction details generalizing i with
  | nil => simp at hidx
  | cons d ds ih =>
    cases i with
    | zero =>
      simp only [List.getElem?_cons_zero, Option.some.injEq] at hidx
      subst hidx
      cases b <;> cases hd : d.hasPaid <;> simp_all [unpaidShares]
      ring
    | succ j =>
      simp only [List.getElem?_cons_succ] at hidx
      have := ih j hidx
      unfold unpaidShares at this ⊢
      by_cases hd : d.hasPaid = true
      · simp [hd, this]
      · simp [hd, this]
        ring

theorem map_save (β : Type) (g : Expense → β) (store : Store) (expenseId : String)
    (expense updated : Expense) (hfind : findById store expenseId = some expense)
    (hid : updated._id = expenseId) (hg : g updated = g expense) :
    (save updated store).map g = store.map g := by
  induction store with
  | nil => rfl
  | cons e es ih =>
    unfold findById at hfind ih
    by_cases he : e._id = expenseId
    · have : e = expense := by simpa [List.find?, he] using hfind
      subst this
      simp [save, he, hid, hg]
    · have h2 : es.find? (fun e => decide (e._id = expenseId)) = some expense := by
        simpa [List.find?, he] using hfind
      have hne : ¬ e._id = updated._id := by rw [hid]; exact he
      simp [save, hne, ih h2]

theorem updateSettlementStatus_settled (user : User) (body : UpdateBody) (store : Store) :
    (updateSettlementStatus exact user body store).2.map
        (fun e => (e._id, e.userId, e.amount - unpaidShares e.splitDetails))
      = store.map (fun e => (e._id, e.userId, e.amount - unpaidShares e.splitDetails)) := by
  cases hfind : findById store body.expenseId with
  | none => simp [updateSettlementStatus, hfind]
  | some expense =>
    cases hidx : expense.splitDetails[body.detailIndex]? with
    | none => simp [updateSettlementStatus, hfind, hidx]
    | some participant =>
      by_cases hsame : participant.hasPaid = body.hasPaid
      · simp [updateSettlementStatus, hfind, hidx, hsame]
      · have hstep : updateSettlementStatus exact user body store = _ :=
          updateSettlementStatus_changed exact user store body.expenseId body.detailIndex
            body.hasPaid expense participant hfind hidx hsame
        rw [hstep]
        dsimp only
        refine map_save _ _ store body.expenseId expense _ hfind ?_ ?_
        · exact @findById_id store body.expenseId expense hfind
        · simp only [Prod.mk.injEq, true_and]
          rw [unpaidShares_set _ _ _ _ hidx hsame]
          cases body.hasPaid
          · simp
          · simp; ring

theorem applyUpdates_settled (calls : List (User × UpdateBody)) (store : Store) :
    (applyUpdates exact store calls).map
        (fun e => (e._id, e.userId, e.amount - unpaidShares e.splitDetails))
      = store.map (fun e => (e._id, e.userId, e.amount - unpaidShares e.splitDetails)) := by
  unfold applyUpdates
  induction calls generalizing store with
  | nil => rfl
  | cons call rest ih =>
    rw [List.foldl_cons, ih, updateSettlementStatus_settled]

theorem unpaidShares_flatMap (expenses : List Expense) :
    unpaidShares (expenses.flatMap (fun e => e.splitDetails))
      = (expenses.map (fun e => unpaidShares e.splitDetails)).sum := by
  induction expenses with
  | nil => rfl
  | cons e es ih =>
    unfold unpaidShares at ih ⊢
    simp [List.flatMap_cons, ih]

theorem tallyAll_exact_fst (expenses : List Expense) :
    (tallyAll exact expenses).1
      = (((expenses.flatMap (fun e => e.splitDetails)).filter
          (fun d => !d.hasPaid)).map (fun d => d.share)).sum := by
  rw [tallyAll_eq, foldl_tally_fst]
  show List.foldl (fun a b => a + b) _ _ = _
  rw [foldl_plus_eq_sum]
  simp

theorem foldl_exact_amount (expenses : List Expense) :
    expenses.foldl (fun total expense => exact.add total expense.amount) 0
      = (expenses.map (fun e => e.amount)).sum := by
  rw [foldl_add_amount]
  show List.foldl (fun a b => a + b) _ _ = _
  rw [foldl_plus_eq_sum]
  simp

theorem fetch_totalAmountSpent (who : User) (store : Store) :
    ∃ r : FetchResult, fetch exact who store = Response.json 200 r ∧
      r.totalAmountSpent
        = (((store.map (fun e => (e._id, e.userId, e.amount - unpaidShares e.splitDetails))).filter
            (fun t => decide (t.2.1 = who.userId))).map (fun t => t.2.2)).sum := by
  refine ⟨_, rfl, ?_⟩
  have hleft : (tallyAll exact (find store who.userId)).1
      = ((find store who.userId).map (fun e => unpaidShares e.splitDetails)).sum := by
    rw [tallyAll_exact_fst, ← unpaidShares_flatMap]
    rfl
  simp only [foldl_exact_amount, hleft, exact_sub, List.filter_map, List.map_map]
  show _ = (List.map (fun e => e.amount - unpaidShares e.splitDetails)
    (find store who.userId)).sum
  generalize find store who.userId = expenses
  induction expenses with
  | nil => simp
  | cons e es ih =>
    simp only [List.map_cons, List.sum_cons, ← ih]
    ring

theorem unpaidShares_buildSplitDetails (A : Arith) (user : User) (amount : ℚ)
    (splitWith : Option (List Person)) :
    unpaidShares (buildSplitDetails A user amount splitWith)
      = ((splitWith.getD []).length : ℚ) * splitAmount A amount splitWith := by
  rw [buildSplitDetails_eq]
  generalize splitAmount A amount splitWith = share
  generalize splitWith.getD [] = ps
  unfold unpaidShares
  induction ps with
  | nil => simp
  | cons p ps ih =>
    simp only [List.map_cons, List.cons_append, List.length_cons]
    rw [List.filter_cons_of_pos (by simp), List.map_cons, List.sum_cons, ih]
    push_cast
    ring

/-! ## Lemmas on `GET /analyze` -/

theorem objGet_num_of_allNumbers (o : Obj) (k : String) (v : JVal)
    (hnum : allNumbers o = true) (h : objGet o k = some v) :
    v = JVal.num (amountOf o k) := by
  have hmem := objGet_mem o k v h
  unfold allNumbers at hnum
  rw [List.all_eq_true] at hnum
  have := hnum _ hmem
  cases v with
  | num q => simp [amountOf, h]
  | text head appended => simp at this

theorem allNumbers_objSet (o : Obj) (k : String) (q : ℚ) (hnum : allNumbers o = true) :
    allNumbers (objSet o k (JVal.num q)) = true := by
  unfold allNumbers at hnum ⊢
  rw [List.all_eq_true] at hnum ⊢
  intro p hp
  rcases mem_objSet o k _ p hp with h | h
  · exact hnum p h
  · rw [h]

/-- On a breakdown of numbers, a key that is not inherited accumulates by
addition. -/
theorem accumulate_of_not_inherited (A : Arith) (key : Expense → String) (acc : Obj)
    (exp : Expense) (hk : inherited (key exp) = false) (hnum : allNumbers acc = true) :
    accumulate A key acc exp
      = objSet acc (key exp) (JVal.num (A.add (amountOf acc (key exp)) exp.amount)) := by
  unfold accumulate
  rw [objAssign_of_not_inherited _ _ _ hk, objLookup_of_not_inherited _ _ hk]
  cases hget : objGet acc (key exp) with
  | none => simp [amountOf, hget, plus]
  | some v =>
    have hv := objGet_num_of_allNumbers acc (key exp) v hnum hget
    rw [hv]
    by_cases hz : amountOf acc (key exp) = 0
    · simp [falsy, hz, plus]
    · simp [falsy, hz, plus]

theorem foldl_accumulate_allNumbers (A : Arith) (key : Expense → String)
    (expenses : List Expense) (acc : Obj)
    (hk : ∀ e ∈ expenses, inherited (key e) = false) (hnum : allNumbers acc = true) :
    allNumbers (expenses.foldl (accumulate A key) acc) = true := by
  induction expenses generalizing acc with
  | nil => exact hnum
  | cons e es ih =>
    rw [List.foldl_cons]
    refine ih _ (fun x hx => hk x (List.mem_cons_of_mem _ hx)) ?_
    rw [accumulate_of_not_inherited A key acc e (hk e (List.mem_cons_self _ _)) hnum]
    exact allNumbers_objSet _ _ _ hnum

theorem foldl_accumulate_ne_nil (A : Arith) (key : Expense → String)
    (expenses : List Expense) (acc : Obj)
    (hk : ∀ e ∈ expenses, inherited (key e) = false) (hnum : allNumbers acc = true)
    (hne : acc ≠ [] ∨ expenses ≠ []) :
    expenses.foldl (accumulate A key) acc ≠ [] := by
  induction expenses generalizing acc with
  | nil =>
    rcases hne with h | h
    · exact h
    · exact absurd rfl h
  | cons e es ih =>
    rw [List.foldl_cons]
    have hstep := accumulate_of_not_inherited A key acc e (hk e (List.mem_cons_self _ _)) hnum
    refine ih _ (fun x hx => hk x (List.mem_cons_of_mem _ hx)) ?_ (Or.inl ?_)
    · rw [hstep]; exact allNumbers_objSet _ _ _ hnum
    · rw [hstep]; exact objSet_ne_nil _ _ _

theorem breakdown_allNumbers (A : Arith) (key : Expense → String) (expenses : List Expense)
    (hk : ∀ e ∈ expenses, inherited (key e) = false) :
    allNumbers (breakdown A key expenses) = true :=
  foldl_accumulate_allNumbers A key expenses [] hk rfl

theorem breakdown_ne_nil (A : Arith) (key : Expense → String) (expenses : List Expense)
    (hk : ∀ e ∈ expenses, inherited (key e) = false) (h : expenses ≠ []) :
    breakdown A key expenses ≠ [] :=
  foldl_accumulate_ne_nil A key expenses [] hk rfl (Or.inr h)

theorem valueSum_objSet (o : Obj) (k : String) (q : ℚ) :
    valueSum (objSet o k (JVal.num q)) = valueSum o - amountOf o k + q := by
  induction o with
  | nil => simp [objSet, objGet, valueSum, amountOf]
  | cons p rest ih =>
    obtain ⟨a, w⟩ := p
    unfold valueSum amountOf at ih ⊢
    by_cases hak : a = k
    · cases w <;> simp [objSet, objGet, hak] <;> ring
    · simp only [objSet, objGet, hak, if_false, List.map_cons, List.sum_cons, ih]
      ring

theorem valueSum_foldl_accumulate (key : Expense → String) (expenses : List Expense)
    (acc : Obj) (hk : ∀ e ∈ expenses, inherited (key e) = false)
    (hnum : allNumbers acc = true) :
    valueSum (expenses.foldl (accumulate exact key) acc)
      = valueSum acc + (expenses.map (fun e => e.amount)).sum := by
  induction expenses generalizing acc with
  | nil => simp
  | cons e es ih =>
    have hstep :=
      accumulate_of_not_inherited exact key acc e (hk e (List.mem_cons_self _ _)) hnum
    rw [List.foldl_cons, ih _ (fun x hx => hk x (List.mem_cons_of_mem _ hx))
      (by rw [hstep]; exact allNumbers_objSet _ _ _ hnum), hstep, valueSum_objSet]
    simp only [exact_add, List.map_cons, List.sum_cons]
    ring

theorem valueSum_breakdown (key : Expense → String) (expenses : List Expense)
    (hk : ∀ e ∈ expenses, inherited (key e) = false) :
    valueSum (breakdown exact key expenses) = (expenses.map (fun e => e.amount)).sum := by
  rw [breakdown, valueSum_foldl_accumulate key expenses [] hk rfl]
  simp [valueSum]

/-- A left fold that keeps the accumulator only when it is strictly greater
ends on the last greatest element. -/
theorem foldl_keep_greater (val : String → ℚ) (gt : String → String → Bool)
    (ks pre mid : List String) (a : String)
    (hgt : ∀ x y, x ∈ pre ++ a :: mid ++ ks → y ∈ pre ++ a :: mid ++ ks →
      gt x y = decide (val x > val y))
    (hpre : ∀ x ∈ pre, val x ≤ val a) (hmid : ∀ x ∈ mid, val x < val a) :
    ∃ pre' post', pre ++ a :: mid ++ ks
        = pre' ++ ks.foldl (fun a b => if gt a b then a else b) a :: post' ∧
      (∀ x ∈ pre', val x ≤ val (ks.foldl (fun a b => if gt a b then a else b) a)) ∧
      (∀ x ∈ post', val x < val (ks.foldl (fun a b => if gt a b then a else b) a)) := by
  induction ks generalizing pre mid a with
  | nil => exact ⟨pre, mid, by simp, hpre, hmid⟩
  | cons b ks ih =>
    have hab : gt a b = decide (val a > val b) := hgt a b (by simp) (by simp)
    rw [List.foldl_cons, hab]
    by_cases hc : val a > val b
    · simp only [hc, decide_True, if_true]
      have := ih pre (mid ++ [b]) a (by simpa using hgt) hpre (by
        intro x hx
        rcases List.mem_append.1 hx with h | h
        · exact hmid x h
        · simp only [List.mem_singleton] at h
          subst h
          exact hc)
      simpa using this
    · simp only [hc, decide_False, Bool.false_eq_true, if_false]
      have hle : val a ≤ val b := not_lt.1 hc
      have := ih (pre ++ a :: mid) [] b (by simpa using hgt) (by
        intro x hx
        rcases List.mem_append.1 hx with h | h
        · exact le_trans (hpre x h) hle
        · rcases List.mem_cons.1 h with h | h
          · subst h; exact hle
          · exact le_trans (le_of_lt (hmid x h)) hle) (by simp)
      simpa using this

theorem filter_getLast_of_split (p : String → Bool) (keys pre post : List String)
    (c : String) (hkeys : keys = pre ++ c :: post) (hc : p c = true)
    (hpost : ∀ j ∈ post, p j = false) :
    (keys.filter p).getLast? = some c := by
  have hnil : post.filter p = [] := by
    rw [List.filter_eq_nil_iff]
    intro j hj
    simp [hpost j hj]
  rw [hkeys, List.filter_append, List.filter_cons_of_pos hc, hnil]
  simp

theorem highestKey_last (o : Obj) (ho : o ≠ []) (hnum : allNumbers o = true) :
    ∃ c, highestKey o = some c ∧ (greatestKeys o).getLast? = some c ∧
      objGet o c = some (JVal.num (amountOf o c)) := by
  unfold highestKey
  cases hks : objectKeys o with
  | nil => exact absurd hks (objectKeys_ne_nil o ho)
  | cons k ks =>
    have hsome : ∀ x, x ∈ k :: ks → objGet o x = some (JVal.num (amountOf o x)) := by
      intro x hx
      rw [← hks, mem_objectKeys, ← objGet_eq_some_iff_mem] at hx
      obtain ⟨v, hv⟩ := hx
      rw [hv, objGet_num_of_allNumbers o x v hnum hv]
    obtain ⟨pre, post, hsplit, hpre, hpost⟩ :=
      foldl_keep_greater (amountOf o) (fun a b => jsGt (objGet o a) (objGet o b)) ks [] [] k
        (by
          intro x y hx hy
          dsimp only
          rw [hsome x (by simpa using hx), hsome y (by simpa using hy)]
          rfl)
        (by simp) (by simp)
    simp only [List.nil_append, List.singleton_append] at hsplit
    have hcmem := (show ∀ c, k :: ks = pre ++ c :: post → c ∈ k :: ks from
      fun c hc => by rw [hc]; simp) _ hsplit
    refine ⟨_, rfl, ?_, hsome _ hcmem⟩
    unfold greatestKeys
    rw [hks]
    refine filter_getLast_of_split _ _ pre post _ hsplit ?_ ?_
    · rw [List.all_eq_true]
      intro j hj
      rw [hsplit] at hj
      simp only [decide_eq_true_eq]
      rcases List.mem_append.1 hj with h | h
      · exact hpre j h
      · rcases List.mem_cons.1 h with h | h
        · rw [h]
        · exact le_of_lt (hpost j h)
    · intro j hj
      rw [List.all_eq_false]
      refine ⟨_, hcmem, ?_⟩
      simpa using hpost j hj

theorem lowestKey_last (o : Obj) (ho : o ≠ []) (hnum : allNumbers o = true) :
    ∃ c, lowestKey o = some c ∧ (leastKeys o).getLast? = some c ∧
      objGet o c = some (JVal.num (amountOf o c)) := by
  unfold lowestKey
  cases hks : objectKeys o with
  | nil => exact absurd hks (objectKeys_ne_nil o ho)
  | cons k ks =>
    have hsome : ∀ x, x ∈ k :: ks → objGet o x = some (JVal.num (amountOf o x)) := by
      intro x hx
      rw [← hks, mem_objectKeys, ← objGet_eq_some_iff_mem] at hx
      obtain ⟨v, hv⟩ := hx
      rw [hv, objGet_num_of_allNumbers o x v hnum hv]
    obtain ⟨pre, post, hsplit, hpre, hpost⟩ :=
      foldl_keep_greater (fun x => -amountOf o x)
        (fun a b => jsLt (objGet o a) (objGet o b)) ks [] [] k
        (by
          intro x y hx hy
          dsimp only
          rw [hsome x (by simpa using hx), hsome y (by simpa using hy)]
          simp [jsLt])
        (by simp) (by simp)
    simp only [List.nil_append, List.singleton_append] at hsplit
    have hcmem := (show ∀ c, k :: ks = pre ++ c :: post → c ∈ k :: ks from
      fun c hc => by rw [hc]; simp) _ hsplit
    refine ⟨_, rfl, ?_, hsome _ hcmem⟩
    unfold leastKeys
    rw [hks]
    refine filter_getLast_of_split _ _ pre post _ hsplit ?_ ?_
    · rw [List.all_eq_true]
      intro j hj
      rw [hsplit] at hj
      simp only [decide_eq_true_eq]
      rcases List.mem_append.1 hj with h | h
      · exact neg_le_neg_iff.1 (hpre j h)
      · rcases List.mem_cons.1 h with h | h
        · rw [h]
        · exact le_of_lt (neg_lt_neg_iff.1 (hpost j h))
    · intro j hj
      rw [List.all_eq_false]
      refine ⟨_, hcmem, ?_⟩
      simpa using neg_lt_neg_iff.1 (hpost j hj)

/-- On a non-empty expense set whose category and day keys are not inherited
names, all four reductions return and `/analyze` answers 200. -/
theorem analyze_of_nonempty (A : Arith) (user : User) (store : Store)
    (h : find store user.userId ≠ [])
    (hlabels : ∀ e ∈ find store user.userId,
      inherited e.category = false ∧ inherited (dayKey e.date) = false) :
    ∃ hc lc hd ld,
      highestKey (breakdown A (fun exp => exp.category) (find store user.userId)) = some hc ∧
      lowestKey (breakdown A (fun exp => exp.category) (find store user.userId)) = some lc ∧
      highestKey (breakdown A (fun exp => dayKey exp.date) (find store user.userId))
        = some hd ∧
      lowestKey (breakdown A (fun exp => dayKey exp.date) (find store user.userId))
        = some ld ∧
      analyze A user store = Response.json 200
        { totalAmount := ((find store user.userId).map (fun e => e.amount)).foldl A.add 0
          categoryWise := breakdown A (fun exp => exp.category) (find store user.userId)
          dateWise := breakdown A (fun exp => dayKey exp.date) (find store user.userId)
          monthlyWise := breakdown A (fun exp => monthKey exp.date) (find store user.userId)
          highestCategory :=
            (hc, objGet (breakdown A (fun exp => exp.category) (find store user.userId)) hc)
          lowestCategory :=
            (lc, objGet (breakdown A (fun exp => exp.category) (find store user.userId)) lc)
          highestDate :=
            (hd, objGet (breakdown A (fun exp => dayKey exp.date) (find store user.userId)) hd)
          lowestDate :=
            (ld, objGet (breakdown A (fun exp => dayKey exp.date) (find store user.userId))
              ld) } := by
  have hcat : ∀ e ∈ find store user.userId, inherited e.category = false :=
    fun e he => (hlabels e he).1
  have hday : ∀ e ∈ find store user.userId, inherited (dayKey e.date) = false :=
    fun e he => (hlabels e he).2
  obtain ⟨hc, h1, -⟩ := highestKey_last _
    (breakdown_ne_nil A (fun exp => exp.category) _ hcat h)
    (breakdown_allNumbers A (fun exp => exp.category) _ hcat)
  obtain ⟨lc, h2, -⟩ := lowestKey_last _
    (breakdown_ne_nil A (fun exp => exp.category) _ hcat h)
    (breakdown_allNumbers A (fun exp => exp.category) _ hcat)
  obtain ⟨hd, h3, -⟩ := highestKey_last _
    (breakdown_ne_nil A (fun exp => dayKey exp.date) _ hday h)
    (breakdown_allNumbers A (fun exp => dayKey exp.date) _ hday)
  obtain ⟨ld, h4, -⟩ := lowestKey_last _
    (breakdown_ne_nil A (fun exp => dayKey exp.date) _ hday h)
    (breakdown_allNumbers A (fun exp => dayKey exp.date) _ hday)
  refine ⟨hc, lc, hd, ld, h1, h2, h3, h4, ?_⟩
  simp only [analyze, h1, h2, h3, h4, foldl_add_amount]

/-! ## The example collections, evaluated -/

theorem exampleStore_eq : exampleStore = [exampleExpense] := by
  simp [exampleStore, add, exampleBody, exampleAlice, exampleExpense, exampleBob,
    exampleAliceEntry, buildSplitDetails, splitAmount, totalParticipants, orNull, orDefault]
  norm_num

theorem findById_exampleStore : findById exampleStore "e1" = some exampleExpense := by
  rw [exampleStore_eq]
  decide

theorem updateSettlementStatus_exampleBob (user : User) :
    updateSettlementStatus exact user ⟨"e1", 0, true⟩ exampleStore
      = (Response.json 200 ("Payment status updated",
          { exampleExpense with
            amount := 150
            splitDetails := [{ exampleBob with hasPaid := true }, exampleAliceEntry] }),
        [{ exampleExpense with
            amount := 150
            splitDetails := [{ exampleBob with hasPaid := true }, exampleAliceEntry] }]) := by
  rw [exampleStore_eq]
  simp [updateSettlementStatus, save, findById, exampleExpense, exampleBob, exampleAliceEntry]
  norm_num

theorem tieStore_labels :
    ∀ e ∈ find tieStore exampleAlice.userId,
      inherited e.category = false ∧ inherited (dayKey e.date) = false := by
  decide

theorem analyze_tieStore :
    analyze exact exampleAlice tieStore
      = Response.json 200
          { totalAmount := 20
            categoryWise := [("food", JVal.num 10), ("travel", JVal.num 10)]
            dateWise := [("2024-03-05", JVal.num 10), ("2024-03-06", JVal.num 10)]
            monthlyWise := [("2024-03", JVal.num 20)]
            highestCategory := ("travel", some (JVal.num 10))
            lowestCategory := ("travel", some (JVal.num 10))
            highestDate := ("2024-03-06", some (JVal.num 10))
            lowestDate := ("2024-03-06", some (JVal.num 10)) } := by
  decide!

/-! ## Lemmas on `individualBalances` -/

theorem foldl_tally_get (A : Arith) (details : List SplitDetail) (acc : ℚ × Obj)
    (k : String) (hk : inherited k = false) (x : Option ℚ)
    (hx : objGet acc.2 k = x.map JVal.num) :
    objGet (details.foldl (tally A) acc).2 k
      = (((details.filter (fun d => !d.hasPaid && decide (d.name = k))).map
            (fun d => d.share)).foldl
          (fun (x : Option ℚ) s => some (x.elim s (fun q => A.add q s))) x).map
        JVal.num := by
  induction details generalizing acc x with
  | nil => simpa using hx
  | cons d ds ih =>
    rw [List.foldl_cons]
    by_cases hp : d.hasPaid = true
    · rw [ih _ x (by simpa [tally, hp] using hx)]
      simp [hp]
    · by_cases hdk : d.name = k
      · subst hdk
        have hstep : objGet (tally A acc d).2 d.name
            = (some (x.elim d.share (fun q => A.add q d.share))).map JVal.num := by
          simp only [tally, hp]
          rw [objLookup_of_not_inherited _ _ hk, hx]
          cases x with
          | none => simp [objAssign_of_not_inherited _ _ _ hk, objGet_objSet]
          | some q => simp [objAssign_of_not_inherited _ _ _ hk, objGet_objSet, plus]
        rw [ih _ _ hstep]
        simp [hp]
      · have hstep : objGet (tally A acc d).2 k = x.map JVal.num := by
          simp only [tally, hp]
          have hset : ∀ v, objGet (objAssign acc.2 d.name v) k = objGet acc.2 k := by
            intro v
            unfold objAssign
            by_cases hproto : d.name = "__proto__"
            · simp [hproto]
            · simp [hproto, objGet_objSet, hdk]
          cases objLookup acc.2 d.name <;> simp [hset, hx]
        rw [ih _ x hstep]
        simp [hp, hdk]

theorem foldl_some_add (A : Arith) (l : List ℚ) (q : ℚ) :
    l.foldl (fun (x : Option ℚ) s => some (x.elim s (fun q => A.add q s))) (some q)
      = some (l.foldl A.add q) := by
  induction l generalizing q with
  | nil => rfl
  | cons s rest ih => simp [ih]

theorem fetch_balance (A : Arith) (who : User) (store : Store) (k : String)
    (hk : inherited k = false) :
    ∃ r : FetchResult, fetch A who store = Response.json 200 r ∧
      r.expenses = find store who.userId ∧
      objGet r.individualBalances k
        = match owedShares k (find store who.userId) with
          | [] => none
          | s :: rest => some (JVal.num (rest.foldl A.add s)) := by
  refine ⟨_, rfl, rfl, ?_⟩
  simp only [tallyAll_eq]
  rw [foldl_tally_get A _ _ k hk none (by simp [objGet])]
  unfold owedShares
  cases ((List.filter (fun d => !d.hasPaid && decide (d.name = k))
      ((find store who.userId).flatMap fun e => e.splitDetails)).map fun d => d.share) with
  | nil => rfl
  | cons s rest => simp [foldl_some_add]

theorem save_append (updated expense : Expense) (before after : List Expense)
    (hid : expense._id = updated._id) (hbefore : ∀ x ∈ before, x._id ≠ updated._id) :
    save updated (before ++ expense :: after) = before ++ updated :: after := by
  induction before with
  | nil => simp [save, hid]
  | cons b bs ih =>
    have hb : ¬ b._id = updated._id := hbefore b (List.mem_cons_self _ _)
    simp [save, hb, ih (fun x hx => hbefore x (List.mem_cons_of_mem _ hx))]

theorem owedShares_append (k : String) (l₁ l₂ : List Expense) :
    owedShares k (l₁ ++ l₂) = owedShares k l₁ ++ owedShares k l₂ := by
  simp [owedShares, List.flatMap_append]

/-- Marking an unpaid entry paid takes its share, and nothing else, out of the
shares owed under its name. -/
theorem owedShares_settled (expense : Expense) (i : Nat) (detail : SplitDetail) (amount : ℚ)
    (hidx : expense.splitDetails[i]? = some detail) (hunpaid : detail.hasPaid = false) :
    ∃ pre post, owedShares detail.name [expense] = pre ++ detail.share :: post ∧
      owedShares detail.name
        [{ expense with
           amount := amount
           splitDetails := expense.splitDetails.set i { detail with hasPaid := true } }]
        = pre ++ post := by
  obtain ⟨hlt, hget⟩ := List.getElem?_eq_some.1 hidx
  refine ⟨((expense.splitDetails.take i).filter
      (fun d => !d.hasPaid && decide (d.name = detail.name))).map (fun d => d.share),
    ((expense.splitDetails.drop (i + 1)).filter
      (fun d => !d.hasPaid && decide (d.name = detail.name))).map (fun d => d.share), ?_, ?_⟩
  · have hsplit : expense.splitDetails
        = expense.splitDetails.take i ++ detail :: expense.splitDetails.drop (i + 1) := by
      rw [← hget, ← List.drop_eq_getElem_cons hlt, List.take_append_drop]
    unfold owedShares
    simp only [List.flatMap_cons, List.flatMap_nil, List.append_nil]
    conv_lhs => rw [hsplit]
    simp [List.filter_append, hunpaid]
  · unfold owedShares
    simp only [List.flatMap_cons, List.flatMap_nil, List.append_nil]
    rw [List.set_eq_take_cons_drop _ hlt]
    simp [List.filter_append]

/-! ## Claims on `/add` and `/update-status` -/

/-- C1: for every amount and every participant list of length `k` (an absent
list counts as `k = 0`), `/add` answers 201 with an expense whose split list has
`k + 1` entries, each with the share the code's division gives for
`amount / (k + 1)`; the first `k` entries are the participants in input order,
entry `i` is paid exactly when `i = k`, and entry `k` is the initiator's.  For
amount 300, participant Bob and initiator Alice the list is
`[{Bob, 150, false}, {Alice, 150, true}]`. -/
theorem add_split_list (A : Arith) (schemaDefaultDate oid : String) (user : User)
    (body : AddBody) (store : Store) :
    (∃ expense : Expense,
      add A schemaDefaultDate oid user body store
        = (Response.json 201 expense, store ++ [expense]) ∧
      expense.amount = body.amount ∧
      expense.splitDetails.length = (body.splitWith.getD []).length + 1 ∧
      (∀ d ∈ expense.splitDetails,
        d.share = A.div body.amount (((body.splitWith.getD []).length : ℚ) + 1)) ∧
      (expense.splitDetails.take (body.splitWith.getD []).length).map (fun d => d.name)
        = (body.splitWith.getD []).map (fun person => orDefault person.name "Anonymous") ∧
      (∀ (i : Nat) (d : SplitDetail), expense.splitDetails[i]? = some d →
        (d.hasPaid = true ↔ i = (body.splitWith.getD []).length)) ∧
      expense.splitDetails[(body.splitWith.getD []).length]?
        = some { userId := some user.userId
                 name := orDefault user.name "You"
                 share := A.div body.amount (((body.splitWith.getD []).length : ℚ) + 1)
                 hasPaid := true }) ∧
    (∀ d ∈ buildSplitDetails exact user body.amount body.splitWith,
      d.share = body.amount / (((body.splitWith.getD []).length : ℚ) + 1)) ∧
    buildSplitDetails exact { userId := "alice-id", name := some "Alice" } 300
        (some [{ userId := none, name := some "Bob" }])
      = [{ userId := none, name := "Bob", share := 150, hasPaid := false },
         { userId := some "alice-id", name := "Alice", share := 150, hasPaid := true }] := by
  refine ⟨⟨_, rfl, rfl, ?_, ?_, ?_, ?_, ?_⟩, ?_, ?_⟩
  · simp [buildSplitDetails_eq]
  · intro d hd
    simp only [buildSplitDetails_eq, splitAmount_eq] at hd
    simp only [List.mem_append, List.mem_map, List.mem_singleton] at hd
    rcases hd with ⟨p, _, rfl⟩ | rfl <;> rfl
  · simp [buildSplitDetails_eq, List.take_append_eq_append_take]
  · intro i d hi
    simp only [buildSplitDetails_eq] at hi
    rcases Nat.lt_trichotomy i (body.splitWith.getD []).length with hlt | heq | hgt
    · rw [List.getElem?_append_left (by simpa using hlt)] at hi
      simp only [List.getElem?_map, Option.map_eq_some'] at hi
      obtain ⟨p, _, rfl⟩ := hi
      simp [Nat.ne_of_lt hlt]
    · subst heq
      rw [List.getElem?_append_right (by simp)] at hi
      simp at hi
      subst hi
      simp
    · rw [List.getElem?_append_right (by simpa using Nat.le_of_lt hgt)] at hi
      have h1 : i - (body.splitWith.getD []).length ≠ 0 := by omega
      obtain ⟨j, hj⟩ := Nat.exists_eq_succ_of_ne_zero h1
      simp [hj] at hi
  · simp only [buildSplitDetails_eq, splitAmount_eq]
    rw [List.getElem?_append_right (by simp)]
    simp
  · intro d hd
    simp only [buildSplitDetails_eq, splitAmount_eq] at hd
    simp only [List.mem_append, List.mem_map, List.mem_singleton] at hd
    rcases hd with ⟨p, _, rfl⟩ | rfl <;> rfl
  · simp only [buildSplitDetails_eq, splitAmount_eq]
    norm_num [orNull, orDefault]
    decide

/-- C2: when the addressed split detail already has `hasPaid = b`, an update
to `b` is answered 400 "Status already updated" and the collection is left as
it is; a call that succeeds is followed, when repeated with the same value, by
that rejection, and the call with the opposite value does succeed. -/
theorem update_same_status_rejected (A : Arith) (user user' : User) (store : Store)
    (expenseId : String) (detailIndex : Nat) (b : Bool) (expense : Expense)
    (detail : SplitDetail)
    (hfind : findById store expenseId = some expense)
    (hidx : expense.splitDetails[detailIndex]? = some detail)
    (hsame : detail.hasPaid = b) :
    updateSettlementStatus A user ⟨expenseId, detailIndex, b⟩ store
      = (Response.error 400 "Status already updated", store) ∧
    (∀ (b' : Bool) (payload : String × Expense) (store' : Store),
      updateSettlementStatus A user ⟨expenseId, detailIndex, b'⟩ store
        = (Response.json 200 payload, store') →
      updateSettlementStatus A user' ⟨expenseId, detailIndex, b'⟩ store'
        = (Response.error 400 "Status already updated", store')) ∧
    (∃ (payload : String × Expense) (store' : Store),
      updateSettlementStatus A user ⟨expenseId, detailIndex, !b⟩ store
        = (Response.json 200 payload, store')) := by
  have hid := findById_id hfind
  have hflip : detail.hasPaid ≠ !b := by rw [hsame]; cases b <;> decide
  have hstep := updateSettlementStatus_changed A user store expenseId detailIndex (!b)
    expense detail hfind hidx hflip
  refine ⟨updateSettlementStatus_same A user store expenseId detailIndex b expense detail
    hfind hidx hsame, ?_, ⟨_, _, hstep⟩⟩
  intro b' payload store' hcall
  have hb' : b' = !b := by
    by_contra hcon
    have hbb : b' = b := by cases b <;> cases b' <;> simp_all
    rw [hbb, updateSettlementStatus_same A user store expenseId detailIndex b expense detail
      hfind hidx hsame] at hcall
    simp at hcall
  subst hb'
  rw [hstep] at hcall
  simp only [Prod.mk.injEq] at hcall
  obtain ⟨_, hstore⟩ := hcall
  subst hstore
  refine updateSettlementStatus_same A user' _ expenseId detailIndex (!b) _
    { detail with hasPaid := !b } (findById_save hfind hid) ?_ rfl
  have hlt : detailIndex < expense.splitDetails.length := by
    by_contra hcon
    rw [List.getElem?_eq_none (by omega)] at hidx
    simp at hidx
  simp [List.getElem?_set, hlt]

/-- Example of C2: Alice's own entry of the example expense is already paid, so
marking it paid is rejected and nothing changes; marking it unpaid succeeds,
and doing so a second time is rejected. -/
theorem update_same_status_rejected_example :
    (findById exampleStore "e1" = some exampleExpense ∧
      exampleExpense.splitDetails[1]? = some exampleAliceEntry ∧
      exampleAliceEntry.hasPaid = true) ∧
    updateSettlementStatus exact exampleAlice ⟨"e1", 1, true⟩ exampleStore
      = (Response.error 400 "Status already updated", exampleStore) ∧
    ∃ (payload : String × Expense) (store' : Store),
      updateSettlementStatus exact exampleAlice ⟨"e1", 1, false⟩ exampleStore
        = (Response.json 200 payload, store') ∧
      updateSettlementStatus exact exampleAlice ⟨"e1", 1, false⟩ store'
        = (Response.error 400 "Status already updated", store') := by
  have h1 : findById exampleStore "e1" = some exampleExpense := findById_exampleStore
  have h2 : exampleExpense.splitDetails[1]? = some exampleAliceEntry := by decide
  have h3 : exampleAliceEntry.hasPaid = true := by decide
  obtain ⟨hsame, hnext, payload, store', hcall⟩ :=
    update_same_status_rejected exact exampleAlice exampleAlice exampleStore "e1" 1 true
      exampleExpense exampleAliceEntry h1 h2 h3
  exact ⟨⟨h1, h2, h3⟩, hsame, payload, store', hcall, hnext false payload store' hcall⟩

/-- C3: on an unpaid split detail, over exact arithmetic, the update to paid
followed by the update back to unpaid both succeed, and they restore the
amount, the paid flags and in fact the whole collection. -/
theorem settle_then_unsettle (user user' : User) (store : Store) (expenseId : String)
    (detailIndex : Nat) (expense : Expense) (detail : SplitDetail)
    (hfind : findById store expenseId = some expense)
    (hidx : expense.splitDetails[detailIndex]? = some detail)
    (hunpaid : detail.hasPaid = false) :
    ∃ (paid restored : Expense) (store' store'' : Store),
      updateSettlementStatus exact user ⟨expenseId, detailIndex, true⟩ store
        = (Response.json 200 ("Payment status updated", paid), store') ∧
      updateSettlementStatus exact user' ⟨expenseId, detailIndex, false⟩ store'
        = (Response.json 200 ("Payment status updated", restored), store'') ∧
      paid.amount = expense.amount - detail.share ∧
      restored.amount = expense.amount ∧
      restored.splitDetails.map (fun d => d.hasPaid)
        = expense.splitDetails.map (fun d => d.hasPaid) ∧
      findById store'' expenseId = some restored ∧
      store'' = store := by
  have hid := findById_id hfind
  have hlt : detailIndex < expense.splitDetails.length := by
    by_contra hcon
    rw [List.getElem?_eq_none (by omega)] at hidx
    simp at hidx
  have h1 := updateSettlementStatus_changed exact user store expenseId detailIndex true
    expense detail hfind hidx (by simp [hunpaid])
  simp only [if_true, exact_sub] at h1
  generalize hpaid : ({ expense with
      amount := expense.amount - detail.share
      splitDetails := expense.splitDetails.set detailIndex
        { detail with hasPaid := true } } : Expense) = paid at h1
  have hpid : paid._id = expenseId := by rw [← hpaid]; exact hid
  have hpidx : paid.splitDetails[detailIndex]? = some { detail with hasPaid := true } := by
    rw [← hpaid]; simp [List.getElem?_set, hlt]
  have h2 := updateSettlementStatus_changed exact user' (save paid store) expenseId
    detailIndex false paid { detail with hasPaid := true } (findById_save hfind hpid) hpidx
    (by simp)
  simp only [Bool.false_eq_true, if_false, exact_add] at h2
  have hrest : ({ paid with
      amount := paid.amount + detail.share
      splitDetails := paid.splitDetails.set detailIndex
        { userId := detail.userId, name := detail.name, share := detail.share,
          hasPaid := false } } : Expense) = expense := by
    have hback : ({ detail with hasPaid := false } : SplitDetail) = detail := by
      cases detail; simp_all
    have hset : expense.splitDetails.set detailIndex detail = expense.splitDetails := by
      apply List.ext_getElem?
      intro i
      by_cases hi : detailIndex = i
      · subst hi; simp [List.getElem?_set, hlt, hidx]
      · simp [List.getElem?_set, hi]
    rw [← hpaid, hback]
    cases expense
    simp_all
  rw [hrest] at h2
  refine ⟨paid, expense, _, _, h1, h2, ?_, rfl, rfl, ?_, ?_⟩
  · rw [← hpaid]
  · rw [save_save _ _ _ (by rw [hpid, hid])]
    exact findById_save hfind hid
  · rw [save_save _ _ _ (by rw [hpid, hid])]
    exact save_of_findById hfind

/-- Example of C3: Bob's entry of the example expense, marked paid and then
unpaid again. -/
theorem settle_then_unsettle_example :
    (findById exampleStore "e1" = some exampleExpense ∧
      exampleExpense.splitDetails[0]? = some exampleBob ∧
      exampleBob.hasPaid = false) ∧
    ∃ (paid restored : Expense) (store' store'' : Store),
      updateSettlementStatus exact exampleAlice ⟨"e1", 0, true⟩ exampleStore
        = (Response.json 200 ("Payment status updated", paid), store') ∧
      updateSettlementStatus exact exampleAlice ⟨"e1", 0, false⟩ store'
        = (Response.json 200 ("Payment status updated", restored), store'') ∧
      paid.amount = exampleExpense.amount - exampleBob.share ∧
      restored.amount = exampleExpense.amount ∧
      restored.splitDetails.map (fun d => d.hasPaid)
        = exampleExpense.splitDetails.map (fun d => d.hasPaid) ∧
      findById store'' "e1" = some restored ∧
      store'' = exampleStore :=
  have h1 : findById exampleStore "e1" = some exampleExpense := findById_exampleStore
  have h2 : exampleExpense.splitDetails[0]? = some exampleBob := by decide
  have h3 : exampleBob.hasPaid = false := by decide
  ⟨⟨h1, h2, h3⟩,
    settle_then_unsettle exampleAlice exampleAlice exampleStore "e1" 0
      exampleExpense exampleBob h1 h2 h3⟩

/-! ## Claims on `/fetch` -/

/-- C8 as stated fails in the arithmetic of the runtime: with expenses 0.03
(alone) and 0.08 (shared with Bob), `/fetch` reports `totalAmountSpent` 0.07 and
`totalAmountLeftToBePaid` 0.04, whose sum, exact or rounded, is not the sum
0.11 of the amounts. -/
theorem fetch_rounding_breaks_reconciliation :
    ∃ r : FetchResult, fetch binary64 exampleAlice centsStore = Response.json 200 r ∧
      r.expenses = centsStore ∧
      r.totalAmountSpent = 1261007895663739 / 18014398509481984 ∧
      r.totalAmountLeftToBePaid = 5764607523034235 / 144115188075855872 ∧
      (centsStore.map (fun e => e.amount)).sum = 7926335344172073 / 72057594037927936 ∧
      (centsStore.map (fun e => e.amount)).foldl binary64.add 0
        = 7926335344172073 / 72057594037927936 ∧
      r.totalAmountSpent + r.totalAmountLeftToBePaid
        ≠ (centsStore.map (fun e => e.amount)).sum ∧
      binary64.add r.totalAmountSpent r.totalAmountLeftToBePaid
        ≠ (centsStore.map (fun e => e.amount)).foldl binary64.add 0 := by
  refine ⟨_, rfl, ?_, ?_, ?_, ?_, ?_, ?_, ?_⟩ <;> decide!

/-- C8 amended: in any arithmetic `/fetch` answers with
`totalAmountLeftToBePaid` the shares of all unpaid split details of the user's
expenses added up in order, and with `totalAmountSpent` the amounts added up in
order minus that; over exact arithmetic `totalAmountLeftToBePaid` is the sum of
those shares and `totalAmountSpent + totalAmountLeftToBePaid` is the sum of the
amounts of the user's expenses. -/
theorem fetch_reconciles (A : Arith) (user : User) (store : Store) :
    (∃ r : FetchResult, fetch A user store = Response.json 200 r ∧
      r.expenses = find store user.userId ∧
      r.totalAmountLeftToBePaid
        = ((((find store user.userId).flatMap (fun e => e.splitDetails)).filter
            (fun d => !d.hasPaid)).map (fun d => d.share)).foldl A.add 0 ∧
      r.totalAmountSpent
        = A.sub (((find store user.userId).map (fun e => e.amount)).foldl A.add 0)
            r.totalAmountLeftToBePaid) ∧
    (∃ r : FetchResult, fetch exact user store = Response.json 200 r ∧
      r.expenses = find store user.userId ∧
      r.totalAmountLeftToBePaid
        = ((((find store user.userId).flatMap (fun e => e.splitDetails)).filter
            (fun d => !d.hasPaid)).map (fun d => d.share)).sum ∧
      r.totalAmountSpent + r.totalAmountLeftToBePaid
        = ((find store user.userId).map (fun e => e.amount)).sum) := by
  refine ⟨⟨_, rfl, rfl, ?_, ?_⟩, ⟨_, rfl, rfl, ?_, ?_⟩⟩
  · simp only [tallyAll_eq, foldl_tally_fst]
  · simp only [foldl_add_amount]
  · exact tallyAll_exact_fst _
  · simp only [foldl_exact_amount, exact_sub]
    ring

/-- C10 as stated fails in the arithmetic of the runtime: for the amount 1
shared with two participants the share is the double nearest to 1/3 and
`/fetch` reports `totalAmountSpent` 0.33333333333333337, which is neither that
double nor 1/3; after Bob's entry is marked paid the amount minus the unpaid
shares has changed and `/fetch` reports 0.3333333333333334. -/
theorem rounding_breaks_settled_part :
    ∃ (expense settled : Expense) (before after : FetchResult),
      thirdsStore = [expense] ∧
      updateSettlementStatus binary64 exampleAlice ⟨"q1", 0, true⟩ thirdsStore
        = (Response.json 200 ("Payment status updated", settled), [settled]) ∧
      fetch binary64 exampleAlice thirdsStore = Response.json 200 before ∧
      fetch binary64 exampleAlice [settled] = Response.json 200 after ∧
      binary64.div 1 3 = 6004799503160661 / 18014398509481984 ∧
      expense.amount - unpaidShares expense.splitDetails
        = 6004799503160662 / 18014398509481984 ∧
      settled.amount - unpaidShares settled.splitDetails
        = 6004799503160663 / 18014398509481984 ∧
      before.totalAmountSpent = 6004799503160662 / 18014398509481984 ∧
      after.totalAmountSpent = 6004799503160663 / 18014398509481984 ∧
      expense.amount - unpaidShares expense.splitDetails ≠ binary64.div 1 3 ∧
      expense.amount - unpaidShares expense.splitDetails ≠ 1 / 3 ∧
      settled.amount - unpaidShares settled.splitDetails
        ≠ expense.amount - unpaidShares expense.splitDetails ∧
      after.totalAmountSpent ≠ before.totalAmountSpent := by
  refine ⟨_, _, _, _, rfl, rfl, rfl, rfl, ?_, ?_, ?_, ?_, ?_, ?_, ?_, ?_, ?_⟩ <;> decide!

/-- C10 amended: over exact arithmetic an `/update-status` request leaves, for
every stored expense, the amount minus the sum of its unpaid shares as it was
(together with its `_id` and owner); after `/add` with `k` participants that
quantity of the new expense is `amount / (k + 1)` and stays so under any
sequence of status updates; and the `totalAmountSpent` of `/fetch` is the same
before and after any such sequence. -/
theorem settled_part_invariant (user who initiator : User) (body : UpdateBody)
    (addBody : AddBody) (schemaDefaultDate oid : String) (store : Store)
    (calls : List (User × UpdateBody)) :
    (updateSettlementStatus exact user body store).2.map
        (fun e => (e._id, e.userId, e.amount - unpaidShares e.splitDetails))
      = store.map (fun e => (e._id, e.userId, e.amount - unpaidShares e.splitDetails)) ∧
    (applyUpdates exact (add exact schemaDefaultDate oid initiator addBody store).2 calls).map
        (fun e => e.amount - unpaidShares e.splitDetails)
      = store.map (fun e => e.amount - unpaidShares e.splitDetails)
          ++ [addBody.amount / (((addBody.splitWith.getD []).length : ℚ) + 1)] ∧
    (∃ before after : FetchResult,
      fetch exact who store = Response.json 200 before ∧
      fetch exact who (applyUpdates exact store calls) = Response.json 200 after ∧
      after.totalAmountSpent = before.totalAmountSpent) := by
  refine ⟨updateSettlementStatus_settled user body store, ?_, ?_⟩
  · have h := congrArg (List.map (fun t : String × String × ℚ => t.2.2))
      (applyUpdates_settled calls (add exact schemaDefaultDate oid initiator addBody store).2)
    simp only [List.map_map] at h
    refine h.trans ?_
    simp only [add, List.map_append, List.map_cons, List.map_nil, Function.comp]
    congr 2
    rw [unpaidShares_buildSplitDetails, splitAmount_eq]
    have hk : ((addBody.splitWith.getD []).length : ℚ) + 1 ≠ 0 := by positivity
    simp only [exact_div]
    field_simp
    ring
  · obtain ⟨before, hb, hbv⟩ := fetch_totalAmountSpent who store
    obtain ⟨after, ha, hav⟩ := fetch_totalAmountSpent who (applyUpdates exact store calls)
    exact ⟨before, after, hb, ha, by rw [hav, hbv, applyUpdates_settled]⟩

/-- C9, at the failing inputs: 300 is shared with two participants who are
both called `constructor`, and the first one's entry is marked paid.  One
unpaid share of 100 remains under that name, but `/fetch` reports under it the
text of the native function `Object` followed by `100`, not the number 100.
With two participants called `__proto__` the remaining share has no entry at
all, although `totalAmountLeftToBePaid` is 100. -/
theorem balances_broken_by_inherited_names :
    (∃ (paid : Expense) (r : FetchResult),
      updateSettlementStatus exact exampleAlice ⟨"n1", 0, true⟩ (namesakeStore "constructor")
        = (Response.json 200 ("Payment status updated", paid), [paid]) ∧
      paid.amount = 200 ∧
      paid.splitDetails
        = [{ userId := none, name := "constructor", share := 100, hasPaid := true },
           { userId := none, name := "constructor", share := 100, hasPaid := false },
           { userId := some "alice-id", name := "Alice", share := 100, hasPaid := true }] ∧
      fetch exact exampleAlice [paid] = Response.json 200 r ∧
      r.totalAmountLeftToBePaid = 100 ∧
      r.individualBalances
        = [("constructor", JVal.text "function Object() { [native code] }" [100])]) ∧
    (∃ (paid : Expense) (r : FetchResult),
      updateSettlementStatus exact exampleAlice ⟨"n1", 0, true⟩ (namesakeStore "__proto__")
        = (Response.json 200 ("Payment status updated", paid), [paid]) ∧
      paid.amount = 200 ∧
      paid.splitDetails
        = [{ userId := none, name := "__proto__", share := 100, hasPaid := true },
           { userId := none, name := "__proto__", share := 100, hasPaid := false },
           { userId := some "alice-id", name := "Alice", share := 100, hasPaid := true }] ∧
      fetch exact exampleAlice [paid] = Response.json 200 r ∧
      r.totalAmountLeftToBePaid = 100 ∧
      r.individualBalances = []) := by
  refine ⟨⟨_, _, rfl, ?_, ?_, rfl, ?_, ?_⟩, ⟨_, _, rfl, ?_, ?_, rfl, ?_, ?_⟩⟩ <;> decide!

/-! ## Claims on `/analyze` -/

/-- C4, at the failing input: a user without expenses gets the 500 answer of
the `catch` block from `/analyze`, because `reduce` without an initial value
throws on the empty key list, although the total has been computed as 0; the
handler of `/fetch` answers 200 with zeros on the same input. -/
theorem analyze_empty_fails :
    find [] exampleAlice.userId = [] ∧
    (find [] exampleAlice.userId).foldl (fun total exp => exact.add total exp.amount)
      (0 : ℚ) = 0 ∧
    highestKey (breakdown exact (fun exp => exp.category) (find [] exampleAlice.userId))
      = none ∧
    analyze exact exampleAlice [] = Response.error 500 "Failed to analyze expenses" ∧
    fetch exact exampleAlice []
      = Response.json 200
          { expenses := []
            totalAmountSpent := 0
            totalAmountLeftToBePaid := 0
            individualBalances := [] } := by
  refine ⟨rfl, rfl, rfl, rfl, ?_⟩
  simp [fetch, find, tallyAll]

/-- C5 as stated fails: with "food" and "travel" both at 10 (and two dates both
at 10), the first key with the greatest amount is "food" (resp. the 5th of
March) but `/analyze` reports "travel" (resp. the 6th) as highest, and
likewise as lowest. -/
theorem extrema_not_first_on_tie :
    analyze exact exampleAlice tieStore
      = Response.json 200
          { totalAmount := 20
            categoryWise := [("food", JVal.num 10), ("travel", JVal.num 10)]
            dateWise := [("2024-03-05", JVal.num 10), ("2024-03-06", JVal.num 10)]
            monthlyWise := [("2024-03", JVal.num 20)]
            highestCategory := ("travel", some (JVal.num 10))
            lowestCategory := ("travel", some (JVal.num 10))
            highestDate := ("2024-03-06", some (JVal.num 10))
            lowestDate := ("2024-03-06", some (JVal.num 10)) } ∧
    (greatestKeys [("food", JVal.num 10), ("travel", JVal.num 10)]).head? = some "food" ∧
    (leastKeys [("food", JVal.num 10), ("travel", JVal.num 10)]).head? = some "food" ∧
    (greatestKeys [("2024-03-05", JVal.num 10), ("2024-03-06", JVal.num 10)]).head?
      = some "2024-03-05" ∧
    (leastKeys [("2024-03-05", JVal.num 10), ("2024-03-06", JVal.num 10)]).head?
      = some "2024-03-05" :=
  ⟨analyze_tieStore, by decide, by decide, by decide, by decide⟩

/-- C5 amended: on a non-empty expense set whose category labels (and day keys)
are not names a plain object inherits, `/analyze` answers 200 in any
arithmetic, every value of `categoryWise` and of `dateWise` is a number, and
`highestCategory` is the last key of `categoryWise`, in `Object.keys` order,
whose amount is at least that of every key, `lowestCategory` the last one whose
amount is at most that of every key, each reported with its amount; the same
holds for `highestDate` and `lowestDate` over `dateWise`. -/
theorem extrema_last_on_tie (A : Arith) (user : User) (store : Store)
    (h : find store user.userId ≠ [])
    (hlabels : ∀ e ∈ find store user.userId,
      inherited e.category = false ∧ inherited (dayKey e.date) = false) :
    ∃ r : AnalysisResult, analyze A user store = Response.json 200 r ∧
      r.categoryWise = breakdown A (fun exp => exp.category) (find store user.userId) ∧
      r.dateWise = breakdown A (fun exp => dayKey exp.date) (find store user.userId) ∧
      allNumbers r.categoryWise = true ∧
      allNumbers r.dateWise = true ∧
      (greatestKeys r.categoryWise).getLast? = some r.highestCategory.1 ∧
      r.highestCategory.2 = some (JVal.num (amountOf r.categoryWise r.highestCategory.1)) ∧
      (leastKeys r.categoryWise).getLast? = some r.lowestCategory.1 ∧
      r.lowestCategory.2 = some (JVal.num (amountOf r.categoryWise r.lowestCategory.1)) ∧
      (greatestKeys r.dateWise).getLast? = some r.highestDate.1 ∧
      r.highestDate.2 = some (JVal.num (amountOf r.dateWise r.highestDate.1)) ∧
      (leastKeys r.dateWise).getLast? = some r.lowestDate.1 ∧
      r.lowestDate.2 = some (JVal.num (amountOf r.dateWise r.lowestDate.1)) := by
  have hcat : ∀ e ∈ find store user.userId, inherited e.category = false :=
    fun e he => (hlabels e he).1
  have hday : ∀ e ∈ find store user.userId, inherited (dayKey e.date) = false :=
    fun e he => (hlabels e he).2
  have n1 := breakdown_allNumbers A (fun exp => exp.category) _ hcat
  have n2 := breakdown_allNumbers A (fun exp => dayKey exp.date) _ hday
  obtain ⟨hc, lc, hd, ld, h1, h2, h3, h4, hr⟩ := analyze_of_nonempty A user store h hlabels
  obtain ⟨hc', e1, g1, a1⟩ := highestKey_last _
    (breakdown_ne_nil A (fun exp => exp.category) _ hcat h) n1
  obtain ⟨lc', e2, g2, a2⟩ := lowestKey_last _
    (breakdown_ne_nil A (fun exp => exp.category) _ hcat h) n1
  obtain ⟨hd', e3, g3, a3⟩ := highestKey_last _
    (breakdown_ne_nil A (fun exp => dayKey exp.date) _ hday h) n2
  obtain ⟨ld', e4, g4, a4⟩ := lowestKey_last _
    (breakdown_ne_nil A (fun exp => dayKey exp.date) _ hday h) n2
  rw [h1] at e1
  rw [h2] at e2
  rw [h3] at e3
  rw [h4] at e4
  cases e1
  cases e2
  cases e3
  cases e4
  exact ⟨_, hr, rfl, rfl, n1, n2, g1, a1, g2, a2, g3, a3, g4, a4⟩

/-- Example of C5 amended, on the two tied expenses. -/
theorem extrema_last_on_tie_example :
    (find tieStore exampleAlice.userId ≠ [] ∧
      ∀ e ∈ find tieStore exampleAlice.userId,
        inherited e.category = false ∧ inherited (dayKey e.date) = false) ∧
    ∃ r : AnalysisResult, analyze exact exampleAlice tieStore = Response.json 200 r ∧
      r.categoryWise
        = breakdown exact (fun exp => exp.category) (find tieStore exampleAlice.userId) ∧
      r.dateWise
        = breakdown exact (fun exp => dayKey exp.date) (find tieStore exampleAlice.userId) ∧
      allNumbers r.categoryWise = true ∧
      allNumbers r.dateWise = true ∧
      (greatestKeys r.categoryWise).getLast? = some r.highestCategory.1 ∧
      r.highestCategory.2 = some (JVal.num (amountOf r.categoryWise r.highestCategory.1)) ∧
      (leastKeys r.categoryWise).getLast? = some r.lowestCategory.1 ∧
      r.lowestCategory.2 = some (JVal.num (amountOf r.categoryWise r.lowestCategory.1)) ∧
      (greatestKeys r.dateWise).getLast? = some r.highestDate.1 ∧
      r.highestDate.2 = some (JVal.num (amountOf r.dateWise r.highestDate.1)) ∧
      (leastKeys r.dateWise).getLast? = some r.lowestDate.1 ∧
      r.lowestDate.2 = some (JVal.num (amountOf r.dateWise r.lowestDate.1)) :=
  ⟨⟨by decide, tieStore_labels⟩,
    extrema_last_on_tie exact exampleAlice tieStore (by decide) tieStore_labels⟩

/-- C7, at the failing inputs: for one expense filed under `__proto__` the
assignment in the category reducer creates no key, the key list is empty,
`reduce` throws and `/analyze` answers 500 on a non-empty expense set; for an
expense of 10 under `constructor` and one of 4 under `food`, `categoryWise` holds
under `constructor` the text of the native function `Object` followed by `10`,
so its values do not add up to the `totalAmount` 14, and `food` is reported
as the highest category. -/
theorem breakdowns_broken_by_inherited_keys :
    find protoStore exampleAlice.userId ≠ [] ∧
    breakdown exact (fun exp => exp.category) (find protoStore exampleAlice.userId) = [] ∧
    analyze exact exampleAlice protoStore = Response.error 500 "Failed to analyze expenses" ∧
    analyze exact exampleAlice constructorStore
      = Response.json 200
          { totalAmount := 14
            categoryWise :=
              [("constructor", JVal.text "function Object() { [native code] }" [10]),
               ("food", JVal.num 4)]
            dateWise := [("2024-03-05", JVal.num 10), ("2024-03-06", JVal.num 4)]
            monthlyWise := [("2024-03", JVal.num 14)]
            highestCategory := ("food", some (JVal.num 4))
            lowestCategory := ("food", some (JVal.num 4))
            highestDate := ("2024-03-05", some (JVal.num 10))
            lowestDate := ("2024-03-06", some (JVal.num 4)) } := by
  refine ⟨?_, ?_, ?_, ?_⟩ <;> decide!

/-! ## Ownership -/

/-- C6, at the failing input: `/update-status` looks the expense up by `_id`
alone, so a caller who does not own the example expense marks Bob's entry paid
and lowers the amount to 150; the answer is 200, not 404. -/
theorem update_by_other_user_succeeds :
    exampleExpense.userId ≠ "mallory-id" ∧
    findById exampleStore "e1" = some exampleExpense ∧
    updateSettlementStatus exact { userId := "mallory-id", name := some "Mallory" }
        ⟨"e1", 0, true⟩ exampleStore
      = (Response.json 200 ("Payment status updated",
          { exampleExpense with
            amount := 150
            splitDetails := [{ exampleBob with hasPaid := true }, exampleAliceEntry] }),
        [{ exampleExpense with
            amount := 150
            splitDetails := [{ exampleBob with hasPaid := true }, exampleAliceEntry] }]) :=
  ⟨by decide, findById_exampleStore, updateSettlementStatus_exampleBob _⟩

/-! ## Further properties, for labels and names that are not inherited -/

/-- X1: on a non-empty expense set whose category, day and month keys are not
names a plain object inherits, over exact arithmetic, `/analyze` answers 200
with `totalAmount` the sum of the amounts of the user's expenses, all values of
the three breakdowns are numbers, and the values of `categoryWise`, of
`dateWise` and of `monthlyWise` each add up to `totalAmount`. -/
theorem breakdowns_add_up (user : User) (store : Store)
    (h : find store user.userId ≠ [])
    (hlabels : ∀ e ∈ find store user.userId,
      inherited e.category = false ∧ inherited (dayKey e.date) = false ∧
        inherited (monthKey e.date) = false) :
    ∃ r : AnalysisResult, analyze exact user store = Response.json 200 r ∧
      r.totalAmount = ((find store user.userId).map (fun e => e.amount)).sum ∧
      allNumbers r.categoryWise = true ∧
      allNumbers r.dateWise = true ∧
      allNumbers r.monthlyWise = true ∧
      valueSum r.categoryWise = r.totalAmount ∧
      valueSum r.dateWise = r.totalAmount ∧
      valueSum r.monthlyWise = r.totalAmount := by
  have hcat : ∀ e ∈ find store user.userId, inherited e.category = false :=
    fun e he => (hlabels e he).1
  have hday : ∀ e ∈ find store user.userId, inherited (dayKey e.date) = false :=
    fun e he => (hlabels e he).2.1
  have hmonth : ∀ e ∈ find store user.userId, inherited (monthKey e.date) = false :=
    fun e he => (hlabels e he).2.2
  obtain ⟨hc, lc, hd, ld, -, -, -, -, hr⟩ :=
    analyze_of_nonempty exact user store h (fun e he => ⟨hcat e he, hday e he⟩)
  have htotal : ((find store user.userId).map (fun e => e.amount)).foldl exact.add 0
      = ((find store user.userId).map (fun e => e.amount)).sum := by
    show List.foldl (fun a b => a + b) _ _ = _
    rw [foldl_plus_eq_sum]
    simp
  refine ⟨_, hr, htotal, breakdown_allNumbers _ _ _ hcat, breakdown_allNumbers _ _ _ hday,
    breakdown_allNumbers _ _ _ hmonth, ?_, ?_, ?_⟩
  · exact (valueSum_breakdown _ _ hcat).trans htotal.symm
  · exact (valueSum_breakdown _ _ hday).trans htotal.symm
  · exact (valueSum_breakdown _ _ hmonth).trans htotal.symm

/-- Example of X1, on the two tied expenses. -/
theorem breakdowns_add_up_example :
    (find tieStore exampleAlice.userId ≠ [] ∧
      ∀ e ∈ find tieStore exampleAlice.userId,
        inherited e.category = false ∧ inherited (dayKey e.date) = false ∧
          inherited (monthKey e.date) = false) ∧
    ∃ r : AnalysisResult, analyze exact exampleAlice tieStore = Response.json 200 r ∧
      r.totalAmount = ((find tieStore exampleAlice.userId).map (fun e => e.amount)).sum ∧
      allNumbers r.categoryWise = true ∧
      allNumbers r.dateWise = true ∧
      allNumbers r.monthlyWise = true ∧
      valueSum r.categoryWise = r.totalAmount ∧
      valueSum r.dateWise = r.totalAmount ∧
      valueSum r.monthlyWise = r.totalAmount :=
  ⟨⟨by decide, by decide⟩, breakdowns_add_up exampleAlice tieStore (by decide) (by decide)⟩

/-- X2: marking an unpaid split detail `d` paid, when `d.name` is not a name a
plain object inherits: the update succeeds, lowers the amount by `d.share` in the
code's arithmetic and sets the flag of that entry alone; in a following
`/fetch`, `individualBalances` maps `d.name` to the shares of the unpaid split
details of that name among the fetched expenses, added up in order, and has no
such key when there is none; and when the caller of `/fetch` owns the expense,
those shares are the ones owed before the update with the share of `d` taken
out. -/
theorem settle_removes_share (A : Arith) (user who : User) (store : Store)
    (expenseId : String) (detailIndex : Nat) (expense : Expense) (detail : SplitDetail)
    (hfind : findById store expenseId = some expense)
    (hidx : expense.splitDetails[detailIndex]? = some detail)
    (hunpaid : detail.hasPaid = false)
    (hname : inherited detail.name = false) :
    ∃ (paid : Expense) (store' : Store) (r : FetchResult),
      updateSettlementStatus A user ⟨expenseId, detailIndex, true⟩ store
        = (Response.json 200 ("Payment status updated", paid), store') ∧
      paid.amount = A.sub expense.amount detail.share ∧
      paid.splitDetails
        = expense.splitDetails.set detailIndex { detail with hasPaid := true } ∧
      findById store' expenseId = some paid ∧
      fetch A who store' = Response.json 200 r ∧
      r.expenses = find store' who.userId ∧
      objGet r.individualBalances detail.name
        = (match owedShares detail.name (find store' who.userId) with
          | [] => none
          | s :: rest => some (JVal.num (rest.foldl A.add s))) ∧
      (who.userId = expense.userId →
        paid ∈ r.expenses ∧
        ∃ pre post,
          owedShares detail.name (find store who.userId) = pre ++ detail.share :: post ∧
          owedShares detail.name (find store' who.userId) = pre ++ post) := by
  have hid := findById_id hfind
  have h1 := updateSettlementStatus_changed A user store expenseId detailIndex true
    expense detail hfind hidx (by simp [hunpaid])
  simp only [if_true] at h1
  generalize hpaid : ({ expense with
      amount := A.sub expense.amount detail.share
      splitDetails := expense.splitDetails.set detailIndex
        { detail with hasPaid := true } } : Expense) = paid at h1
  have hpid : paid._id = expenseId := by rw [← hpaid]; exact hid
  have hfind' : findById (save paid store) expenseId = some paid := findById_save hfind hpid
  obtain ⟨r, hr, hexp, hbal⟩ := fetch_balance A who (save paid store) detail.name hname
  refine ⟨paid, save paid store, r, h1, by rw [← hpaid], by rw [← hpaid], hfind', hr, hexp,
    hbal, ?_⟩
  intro hwho
  constructor
  · rw [hexp]
    have hmem := List.mem_of_find?_eq_some hfind'
    simp only [find, List.mem_filter]
    refine ⟨hmem, ?_⟩
    rw [← hpaid]
    simpa using hwho.symm
  · obtain ⟨-, before, after, hstore, hbefore⟩ := List.find?_eq_some.1 hfind
    have hbefore' : ∀ x ∈ before, x._id ≠ paid._id := by
      intro x hx
      rw [hpid]
      simpa using hbefore x hx
    have hsave : save paid store = before ++ paid :: after := by
      rw [hstore]
      exact save_append paid expense before after (by rw [hid, hpid]) hbefore'
    have hpu : paid.userId = who.userId := by rw [← hpaid]; exact hwho.symm
    have hfs : find store who.userId
        = find before who.userId ++ [expense] ++ find after who.userId := by
      rw [hstore]
      simp [find, List.filter_append, List.filter_cons, hwho.symm]
    have hfs' : find (save paid store) who.userId
        = find before who.userId ++ [paid] ++ find after who.userId := by
      rw [hsave]
      simp [find, List.filter_append, List.filter_cons, hpu]
    obtain ⟨pre, post, hpre, hpost⟩ :=
      owedShares_settled expense detailIndex detail (A.sub expense.amount detail.share)
        hidx hunpaid
    rw [hpaid] at hpost
    refine ⟨owedShares detail.name (find before who.userId) ++ pre,
      post ++ owedShares detail.name (find after who.userId), ?_, ?_⟩
    · rw [hfs, owedShares_append, owedShares_append, hpre]
      simp
    · rw [hfs', owedShares_append, owedShares_append, hpost]
      simp

/-- Example of X2: once Bob's entry of the 300 expense is
marked paid, the amount is 150 and `individualBalances` has no key "Bob". -/
theorem settle_removes_share_example :
    (findById exampleStore "e1" = some exampleExpense ∧
      exampleExpense.splitDetails[0]? = some exampleBob ∧
      exampleBob.hasPaid = false ∧
      inherited exampleBob.name = false) ∧
    ∃ (paid : Expense) (store' : Store) (r : FetchResult),
      updateSettlementStatus exact exampleAlice ⟨"e1", 0, true⟩ exampleStore
        = (Response.json 200 ("Payment status updated", paid), store') ∧
      paid.amount = 150 ∧
      fetch exact exampleAlice store' = Response.json 200 r ∧
      paid ∈ r.expenses ∧
      objGet r.individualBalances "Bob" = none := by
  have h1 : findById exampleStore "e1" = some exampleExpense := findById_exampleStore
  have h2 : exampleExpense.splitDetails[0]? = some exampleBob := by decide
  have h3 : exampleBob.hasPaid = false := by decide
  have h4 : inherited exampleBob.name = false := by decide
  obtain ⟨paid, store', r, hupd, -, -, -, hfetch, -, hbal, howner⟩ :=
    settle_removes_share exact exampleAlice exampleAlice exampleStore "e1" 0
      exampleExpense exampleBob h1 h2 h3 h4
  have hval := updateSettlementStatus_exampleBob exampleAlice
  rw [hval] at hupd
  simp only [Prod.mk.injEq, Response.json.injEq, true_and] at hupd
  obtain ⟨hpaid, hstore⟩ := hupd
  subst hstore
  refine ⟨⟨h1, h2, h3, h4⟩, paid, _, r, ?_, ?_, hfetch, (howner rfl).1, ?_⟩
  · rw [hval, hpaid]
  · rw [← hpaid]
  · exact hbal.trans (by decide)

end Expensy
